import Mathlib

/-!
Verification of the xinke housing-assistant front end and its agent
protocol.

The repository sources under verification are the Vue/Pinia client:

* `frontend` store (`useHousingStore`): the streaming-event handler
  `handleStreamEvent`, the message actions `sendMessage` /
  `sendMessageStream`, session helpers and `isReportResponse`;
* the API client (`HousingAPI`): request construction for `/chat` and
  `/reset`, and the hand-written SSE stream parser of
  `sendChatMessageStream`.

The backend agent loop, event-stream encoder and session store are not
part of the repository's sources; where a property needs them they are
modelled from the specification (spec §4.3–§4.5, §6) and from
`docs/API_DOCUMENTATION.md`, and each such definition is marked
`Modelled from the spec:` in its doc comment.

JavaScript-specific behaviour (the falsiness of `''` and `undefined` in
`a || b` chains, `Array.find` returning the first match, exceptions from
calling `.includes` on `undefined`) is embedded explicitly so that the
theorems are about the code as written.
-/

namespace Housing

/-- Evaluation of the JavaScript expression `a || b` on two possibly
absent strings: `undefined` and the empty string are falsy, so both fall
through to `b`. -/
def jsOr (a b : Option String) : Option String :=
  match a with
  | some s => if s = "" then b else some s
  | none => b

/-- Evaluation of the JavaScript expression `a || dflt` where `dflt` is
a string literal supplied by the code. -/
def jsOrD (a : Option String) (dflt : String) : String :=
  match a with
  | some s => if s = "" then dflt else s
  | none => dflt

/-- Substring test on character lists, the embedding of JavaScript
`hay.includes(needle)`. -/
def containsSub (hay needle : List Char) : Bool :=
  needle.isPrefixOf hay ||
    match hay with
    | [] => false
    | _ :: t => containsSub t needle

/-- Whitespace recognised by `String.trim` in the source's SSE parser
(restricted to the ASCII whitespace that occurs in an SSE byte stream). -/
def isJsSpace (c : Char) : Bool := c == ' ' || c == '\t' || c == '\r' || c == '\n'

/-- Character-list embedding of JavaScript `s.trim()`. -/
def trimChars (l : List Char) : List Char :=
  ((l.dropWhile isJsSpace).reverse.dropWhile isJsSpace).reverse

/-- String form of `trimChars`, used by the guard `if (!input.trim())`. -/
def jsTrim (s : String) : String := String.mk (trimChars s.data)

/-- Data object carried by one wire event (`{event: name, data: json}`,
spec §6); every field is optional because the client reads each with
`data.field || fallback`. -/
structure EventData where
  content : Option String := none
  message : Option String := none
  tool_name : Option String := none
  tool_args : Option String := none
  result : Option String := none
  full_response : Option String := none
  response : Option String := none
  status : Option String := none
  iterations : Option Nat := none
  conversation_id : Option String := none
  error : Option String := none
  deriving DecidableEq, Repr

/-- One wire event: its `event:` name together with its `data:` payload. -/
abbrev WireEvent := String × EventData

/-- Entry of the store's `currentToolCalls` array (the `id` and
`timestamp` fields of the source are wall-clock values that no code
reads back; they are omitted). -/
structure ToolCallEntry where
  tool_name : String
  status : String
  message : String
  deriving DecidableEq, Repr

/-- Entry of the store's `conversationHistory` (again without the
wall-clock `id`/`timestamp` fields); `content` is optional because the
source can push `undefined` content. -/
structure HistMessage where
  role : String
  content : Option String
  deriving DecidableEq, Repr

/-- The store's `reportData` value (without the wall-clock timestamp). -/
structure ReportData where
  content : String
  conversationId : Option String
  deriving DecidableEq, Repr

/-- The part of the Pinia store state read or written by the actions
under verification. -/
structure StoreState where
  conversationHistory : List HistMessage := []
  currentStep : String := "input"
  isStreaming : Bool := false
  streamingMessage : String := ""
  currentToolCalls : List ToolCallEntry := []
  streamingProgress : String := ""
  reportData : Option ReportData := none
  conversationId : Option String := none
  error : Option String := none
  loading : Bool := false
  userInput : String := ""
  deriving DecidableEq, Repr

/-- The store's initial state (the `state()` initializer). -/
def initState : StoreState := {}

/-- The store action `initializeSession`. -/
def initializeSession (s : StoreState) : StoreState :=
  { s with conversationId := none, conversationHistory := [], currentStep := "input" }

/-- A JavaScript error value as far as `handleError` inspects it:
`error.response?.data?.detail`. -/
structure JsError where
  detail : Option String := none
  deriving DecidableEq, Repr

/-- The store helper `handleError(message, error)`: records `message` in
`state.error`, appending the server detail when the error carries one. -/
def handleErrorState (s : StoreState) (msg : String) (e : JsError) : StoreState :=
  { s with error :=
      match e.detail with
      | some d => if d = "" then some msg else some (msg ++ ": " ++ d)
      | none => some msg }

/-- The store predicate `isReportResponse(message)`: the message contains
one of the three report markers. -/
def isReportResponse (m : String) : Bool :=
  containsSub m.data "购房资金方案报告".data ||
    containsSub m.data "总成本概览".data ||
    containsSub m.data "月供压力分析".data

/-- Embedding of `find(tool => tool.tool_name === name && tool.status ===
'running')` followed by the in-place update to `completed`: the first
running entry with the given name is completed, and the list is
unchanged when none matches. -/
def completeFirst (l : List ToolCallEntry) (name msg : String) : List ToolCallEntry :=
  match l with
  | [] => []
  | e :: t =>
    if e.tool_name = name ∧ e.status = "running" then
      { e with status := "completed", message := msg } :: t
    else
      e :: completeFirst t name msg

/-- Test used to observe whether the `tool_result` lookup in
`handleStreamEvent` finds a running entry. -/
def hasRunning (l : List ToolCallEntry) (name : String) : Bool :=
  l.any fun e => e.tool_name == name && e.status == "running"

/-- The `fullMessage` expression of the `done` branch:
`this.streamingMessage || data.response || data.message`. -/
def doneFullMessage (s : StoreState) (d : EventData) : Option String :=
  jsOr (some s.streamingMessage) (jsOr d.response d.message)

/-- The store action `handleStreamEvent(eventType, data)`. The returned
Boolean records whether the branch raised a TypeError: in the source the
`done` branch evaluates `fullMessage.includes(...)` via
`isReportResponse`, which throws when `fullMessage` is `undefined`,
after the assistant message has already been pushed and before the
streaming state is cleaned up. -/
def handleStreamEvent (s : StoreState) (eventType : String) (d : EventData) :
    StoreState × Bool :=
  if eventType = "message" ∨ eventType = "response_chunk" then
    ({ s with streamingMessage :=
        s.streamingMessage ++ jsOrD (jsOr d.content d.message) "" }, false)
  else if eventType = "tool_call" then
    let toolName := jsOrD d.tool_name "工具"
    let toolMessage := jsOrD d.message ("正在调用 " ++ toolName ++ "...")
    ({ s with
        currentToolCalls :=
          s.currentToolCalls ++ [⟨toolName, "running", toolMessage⟩],
        streamingProgress := toolMessage }, false)
  else if eventType = "tool_result" then
    let resultToolName := jsOrD d.tool_name "工具"
    let resultMessage := jsOrD d.message (resultToolName ++ " 执行完成")
    ({ s with
        currentToolCalls :=
          completeFirst s.currentToolCalls resultToolName resultMessage,
        streamingProgress := resultMessage }, false)
  else if eventType = "thinking" then
    ({ s with streamingProgress := jsOrD d.message "正在思考..." }, false)
  else if eventType = "response_start" then
    ({ s with streamingProgress := "正在生成回复..." }, false)
  else if eventType = "response_end" then
    ({ s with streamingProgress := "" }, false)
  else if eventType = "error" then
    (handleErrorState s "流式响应错误" {}, false)
  else if eventType = "complete" ∨ eventType = "done" then
    let s1 :=
      match d.conversation_id with
      | some cid => if cid = "" then s else { s with conversationId := some cid }
      | none => s
    let fullMessage := doneFullMessage s d
    let s2 := { s1 with conversationHistory :=
        s1.conversationHistory ++ [⟨"assistant", fullMessage⟩] }
    match fullMessage with
    | none => (s2, true)
    | some m =>
      let s3 :=
        if isReportResponse m then
          { s2 with reportData := some ⟨m, d.conversation_id⟩, currentStep := "result" }
        else s2
      ({ s3 with
          streamingMessage := ""
          streamingProgress := ""
          currentToolCalls := [] }, false)
  else (s, false)

/-- Folding a turn's events through `handleStreamEvent` exactly as the
`onEvent` callback of `sendMessageStream` does; a TypeError raised by
one event is caught by the SSE parser's surrounding `try` (which wraps
the `onEvent` call), so later events are still processed against the
partially mutated state. -/
def processTurn (s : StoreState) (es : List WireEvent) : StoreState :=
  es.foldl (fun s e => (handleStreamEvent s e.1 e.2).1) s

/-- One step of `processTurn` that additionally observes, for every
`tool_result` event, whether the lookup over `currentToolCalls` found a
running entry with the same tool name. -/
def stepChecked (p : StoreState × Bool) (e : WireEvent) : StoreState × Bool :=
  let ok :=
    if e.1 = "tool_result" then hasRunning p.1.currentToolCalls (jsOrD e.2.tool_name "工具")
    else true
  ((handleStreamEvent p.1 e.1 e.2).1, p.2 && ok)

/-- Checked fold of a turn's events: the Boolean is `true` iff every
`tool_result` event found a matching running tool-call entry. -/
def processTurnChecked (s : StoreState) (es : List WireEvent) : StoreState × Bool :=
  es.foldl stepChecked (s, true)

/-- The non-streaming `/chat` JSON response as the client reads it
(`response.conversation_id`, `response.response`, `response.message`). -/
structure ChatResponse where
  conversation_id : Option String := none
  response : Option String := none
  message : Option String := none
  deriving DecidableEq, Repr

/-- Condition under which the `catch` blocks of `sendMessage` /
`sendMessageStream` pop the last history entry: the history is nonempty
and its last entry has role `user`. -/
def lastIsUser (l : List HistMessage) : Bool :=
  match l.getLast? with
  | some msg => msg.role == "user"
  | none => false

/-- The store action `sendMessage(input)`. The outcome of the awaited
`HousingAPI.sendChatMessage` call is passed in as `result`; on
`Except.error` the `catch` block runs. When the call succeeds but the
response carries neither `response` nor `message`, the source pushes an
`undefined` assistant message and then `isReportResponse(undefined)`
throws inside the same `try`, so the `catch` block runs after that push. -/
def sendMessageRun (s : StoreState) (input : String)
    (result : Except JsError ChatResponse) : StoreState :=
  if jsTrim input = "" then s
  else
    let s0 := { s with loading := true, error := none, userInput := input }
    let s1 := { s0 with
        conversationHistory := s0.conversationHistory ++ [⟨"user", some input⟩]
        currentStep := "chat" }
    match result with
    | .error e =>
      let s2 := handleErrorState s1 "发送消息失败" e
      let s3 :=
        if lastIsUser s2.conversationHistory then
          { s2 with conversationHistory := s2.conversationHistory.dropLast }
        else s2
      { s3 with currentStep := "input", loading := false }
    | .ok resp =>
      let s2 :=
        match resp.conversation_id with
        | some cid => if cid = "" then s1 else { s1 with conversationId := some cid }
        | none => s1
      let fullMsg := jsOr resp.response resp.message
      let s3 := { s2 with
          conversationHistory := s2.conversationHistory ++ [⟨"assistant", fullMsg⟩] }
      match fullMsg with
      | none =>
        let s4 := handleErrorState s3 "发送消息失败" {}
        let s5 :=
          if lastIsUser s4.conversationHistory then
            { s4 with conversationHistory := s4.conversationHistory.dropLast }
          else s4
        { s5 with currentStep := "input", loading := false }
      | some m =>
        let s4 :=
          if isReportResponse m then
            { s3 with reportData := some ⟨m, resp.conversation_id⟩, currentStep := "result" }
          else s3
        { s4 with loading := false }

/-- The store action `sendMessageStream(input)`. The awaited
`HousingAPI.sendChatMessageStream` call delivers `es` to the `onEvent`
callback and then either returns normally (`throwsAfter = false`) or
rejects (`throwsAfter = true`, e.g. a network error from `fetch` or
`reader.read()`, which can happen after any prefix of the stream has
already been delivered); on rejection the `catch` block runs. -/
def sendMessageStreamRun (s : StoreState) (input : String) (es : List WireEvent)
    (throwsAfter : Bool) : StoreState :=
  if jsTrim input = "" then s
  else
    let s0 := { s with
        isStreaming := true
        error := none
        userInput := input
        streamingMessage := ""
        streamingProgress := ""
        currentToolCalls := [] }
    let s1 := { s0 with
        conversationHistory := s0.conversationHistory ++ [⟨"user", some input⟩]
        currentStep := "chat" }
    let s2 := processTurn s1 es
    let s3 :=
      if throwsAfter then
        let t := handleErrorState s2 "发送流式消息失败" {}
        let t2 :=
          if lastIsUser t.conversationHistory then
            { t with conversationHistory := t.conversationHistory.dropLast }
          else t
        { t2 with currentStep := "input" }
      else s2
    { s3 with isStreaming := false }

/-- The JSON body posted by `HousingAPI.sendChatMessage` and
`HousingAPI.sendChatMessageStream` to `/chat`. -/
structure ChatRequest where
  message : String
  stream : Bool
  conversation_id : Option String
  max_iterations : Nat
  deriving DecidableEq, Repr

/-- Request body built by `HousingAPI.sendChatMessage(message,
conversationId = null, maxIterations = 15)`. -/
def sendChatMessageBody (message : String) (conversationId : Option String := none)
    (maxIterations : Nat := 15) : ChatRequest :=
  { message := message
    stream := false
    conversation_id := conversationId
    max_iterations := maxIterations }

/-- Request body built by `HousingAPI.sendChatMessageStream(message,
onEvent, conversationId = null, maxIterations = 15)`. -/
def sendChatMessageStreamBody (message : String) (conversationId : Option String := none)
    (maxIterations : Nat := 15) : ChatRequest :=
  { message := message
    stream := true
    conversation_id := conversationId
    max_iterations := maxIterations }

/-- An HTTP request as far as the `/reset` endpoint is concerned: the
URL query string and the JSON body fields. -/
structure HttpRequest where
  path : String
  query : List (String × String)
  body : List (String × String)
  deriving DecidableEq, Repr

/-- Request built by `HousingAPI.resetSession(conversationId)`:
`apiClient.post('/reset', { conversation_id: conversationId })` puts the
id in the JSON body and leaves the query string empty. -/
def resetSessionRequest (conversationId : String) : HttpRequest :=
  { path := "/reset", query := [], body := [("conversation_id", conversationId)] }

/-- Request built by `HousingAPI.resetAllSessions()`:
`apiClient.post('/reset')` with neither query parameters nor a body. -/
def resetAllSessionsRequest : HttpRequest :=
  { path := "/reset", query := [], body := [] }

/-- Modelled from the spec: the backend session store and its `/reset`
endpoint are not among the repository's sources (only the front end and
the API documentation are). Per spec §4.4 — `reset(id?)` resets one
conversation, or all if the id is omitted — and
`docs/API_DOCUMENTATION.md`, which documents `conversation_id` as a URL
query parameter of `POST /reset` ("不提供则重置所有会话"), the handler
reads the id from the request's query string and clears every session
when it is absent. -/
def resetHandler (sessions : List String) (req : HttpRequest) : List String :=
  match req.query.lookup "conversation_id" with
  | some cid => sessions.filter (fun s => s != cid)
  | none => []

/-- State of the two loop-local variables of the SSE reading loop in
`sendChatMessageStream` that survive across lines: `currentEvent` and
the list of `(eventType, data)` pairs delivered to `onEvent` so far.
The payload type is abstract (`α`) together with the `JSON.parse`
attempt `parse`; a `none` result models a thrown SyntaxError. -/
structure SSELineState (α : Type) where
  currentEvent : Option (List Char)
  emitted : List (List Char × α)
  deriving DecidableEq, Repr

/-- Processing of one complete line by the `for (const line of lines)`
body: trim, dispatch on the `event: ` / `data: ` prefixes, reset
`currentEvent` on a blank line, ignore anything else. A `data: ` line is
delivered only under a current event type, and only when its payload
parses. -/
def sseLine {α : Type} (parse : List Char → Option α) (st : SSELineState α)
    (line : List Char) : SSELineState α :=
  let t := trimChars line
  if "event: ".data.isPrefixOf t then
    { st with currentEvent := some (t.drop 7) }
  else if "data: ".data.isPrefixOf t then
    match st.currentEvent with
    | some ev =>
      match parse (t.drop 6) with
      | some d => { st with emitted := st.emitted ++ [(ev, d)] }
      | none => st
    | none => st
  else if t = [] then
    { st with currentEvent := none }
  else st

/-- Embedding of `buffer.split('\n')` followed by `buffer = lines.pop()`:
the complete lines before the remainder that is carried to the next
chunk. -/
def splitNl : List Char → List (List Char) × List Char
  | [] => ([], [])
  | c :: rest =>
    if c = '\n' then
      (([] : List Char) :: (splitNl rest).1, (splitNl rest).2)
    else
      match splitNl rest with
      | ([], r) => ([], c :: r)
      | (l :: ls, r) => ((c :: l) :: ls, r)

/-- Full parser state: the line machine plus the carried `buffer`. -/
structure SSEFeedState (α : Type) where
  line : SSELineState α
  buffer : List Char
  deriving DecidableEq, Repr

/-- Initial parser state (`buffer = ''`, `currentEvent = null`). -/
def sseInit {α : Type} : SSEFeedState α := ⟨⟨none, []⟩, []⟩

/-- Processing of one decoded chunk by the `while` loop body:
`buffer += chunk`, split into lines, keep the trailing incomplete line,
run the line dispatcher on each complete line. -/
def feedChunk {α : Type} (parse : List Char → Option α) (st : SSEFeedState α)
    (chunk : List Char) : SSEFeedState α :=
  let p := splitNl (st.buffer ++ chunk)
  ⟨p.1.foldl (sseLine parse) st.line, p.2⟩

/-- Processing of a whole sequence of chunks as delivered by
`reader.read()`. -/
def feedAll {α : Type} (parse : List Char → Option α) (st : SSEFeedState α)
    (chunks : List (List Char)) : SSEFeedState α :=
  chunks.foldl (feedChunk parse) st

/-- Character-level presentation of `feedChunk`, used to prove that the
emitted callbacks do not depend on how the stream is cut into chunks. -/
def feedChar {α : Type} (parse : List Char → Option α) (st : SSEFeedState α)
    (c : Char) : SSEFeedState α :=
  if c = '\n' then ⟨sseLine parse st.line st.buffer, []⟩
  else ⟨st.line, st.buffer ++ [c]⟩

/-- Modelled from the spec: the model gateway's possible answers for one
round trip (spec §4.2) — a list of requested tool invocations, a final
text delivered as ordered fragments (a single fragment for a
non-streaming gateway), or an unrecoverable failure after the retry
policy is exhausted (spec §7). -/
inductive GwResponse where
  | toolCalls (requests : List (String × String))
  | finalText (chunks : List String)
  | failure (msg : String)
  deriving DecidableEq, Repr

/-- Whether a gateway answer requests tool calls. -/
def GwResponse.requestsTools : GwResponse → Bool
  | .toolCalls _ => true
  | _ => false

/-- Concatenation of text fragments in order. -/
def joinList : List String → String
  | [] => ""
  | c :: cs => c ++ joinList cs

/-- Modelled from the spec: conversation messages appended by the loop
(spec §3) — the assistant frame carrying tool-call requests, one tool
result per outcome, and the final assistant text. -/
inductive LoopMsg where
  | assistantCalls (requests : List (String × String))
  | toolResult (name result : String)
  | assistantText (text : String)
  deriving DecidableEq, Repr

/-- Modelled from the spec: result of one turn of the agent loop — the
emitted wire events in order, the messages appended to the conversation,
the final status, the iteration counter at completion, and the failure
reason if any. -/
structure TurnResult where
  events : List WireEvent
  messages : List LoopMsg
  status : String
  iterations : Nat
  reason : Option String
  deriving DecidableEq, Repr

/-- Wire event `thinking` (spec §6, `docs/API_DOCUMENTATION.md`). -/
def thinkingEv : WireEvent :=
  ("thinking", { message := some "正在理解您的需求..." })

/-- Wire event `tool_call` for one requested invocation. -/
def toolCallEv (r : String × String) : WireEvent :=
  ("tool_call", { tool_name := some r.1, tool_args := some r.2
                  message := some ("正在调用 " ++ r.1 ++ "...") })

/-- Wire event `tool_result` for one outcome. -/
def toolResultEv (exec : String → String → String) (r : String × String) : WireEvent :=
  ("tool_result", { tool_name := some r.1, result := some (exec r.1 r.2)
                    message := some (r.1 ++ " 执行完成") })

/-- Wire event `response_start`. -/
def responseStartEv (iters : Nat) : WireEvent :=
  ("response_start", { message := some "开始生成回复...", iterations := some iters })

/-- Wire event `response_chunk` carrying one text fragment. -/
def responseChunkEv (c : String) : WireEvent :=
  ("response_chunk", { content := some c })

/-- Wire event `response_end` carrying the full assembled text. -/
def responseEndEv (full : String) : WireEvent :=
  ("response_end", { message := some "回复生成完成", full_response := some full })

/-- Wire event `done` (its data carries status, iteration count and
conversation id — no response text, per `docs/API_DOCUMENTATION.md`). -/
def doneEv (status : String) (iters : Nat) (cid : String) : WireEvent :=
  ("done", { status := some status, iterations := some iters
             conversation_id := some cid })

/-- Wire event `error`. -/
def errorEv (msg : String) : WireEvent :=
  ("error", { error := some msg, message := some "处理失败" })

/-- Events of one tool round: one `tool_call` per request in the order
the model returned them, then one `tool_result` per outcome in the same
order (spec §4.3 step 3, §4.5). -/
def roundEvents (exec : String → String → String) (reqs : List (String × String)) :
    List WireEvent :=
  reqs.map toolCallEv ++ reqs.map (toolResultEv exec)

/-- Conversation messages appended by one tool round (spec §4.3 step 3c). -/
def roundMsgs (exec : String → String → String) (reqs : List (String × String)) :
    List LoopMsg :=
  .assistantCalls reqs :: reqs.map (fun r => .toolResult r.1 (exec r.1 r.2))

/-- Modelled from the spec: the agent orchestration loop (spec §4.3),
one call per round trip. `gw k` is the gateway's answer to the call made
with iteration counter `k`; `exec` runs one tool invocation (the loop
only forwards its payload, success or error descriptor alike, spec
§4.1/§7); `fuel` bounds the recursion and is set to `maxIter` by
`agentRun` — the fuel-exhausted branch is unreachable whenever
`1 ≤ maxIter` (proved below). After a tool round the counter is
incremented and, if a further round trip would exceed `max_iterations`,
the turn ends as Failed with reason `IterationLimitExceeded`, the
round's results having been appended (spec §4.3 step 3c, Scenario D). -/
def loopAux (gw : Nat → GwResponse) (exec : String → String → String) (cid : String)
    (maxIter : Nat) : Nat → Nat → TurnResult
  | _, 0 =>
    { events := [errorEv "loop interrupted"], messages := [],
      status := "error", iterations := 0, reason := some "Interrupted" }
  | iter, fuel + 1 =>
    match gw iter with
    | .finalText chunks =>
      let full := joinList chunks
      { events := thinkingEv :: responseStartEv (iter + 1) ::
          (chunks.map responseChunkEv ++ [responseEndEv full, doneEv "success" (iter + 1) cid])
        messages := [.assistantText full]
        status := "success", iterations := iter + 1, reason := none }
    | .failure msg =>
      { events := [thinkingEv, errorEv msg], messages := [],
        status := "error", iterations := iter, reason := some "GatewayError" }
    | .toolCalls reqs =>
      if iter + 1 ≥ maxIter then
        { events := thinkingEv :: (roundEvents exec reqs ++ [doneEv "error" (iter + 1) cid])
          messages := roundMsgs exec reqs
          status := "error", iterations := iter + 1
          reason := some "IterationLimitExceeded" }
      else
        let rest := loopAux gw exec cid maxIter (iter + 1) fuel
        { events := thinkingEv :: (roundEvents exec reqs ++ rest.events)
          messages := roundMsgs exec reqs ++ rest.messages
          status := rest.status, iterations := rest.iterations, reason := rest.reason }

/-- Modelled from the spec: one whole turn, starting with iteration
counter 0 (spec §4.3 step 1). -/
def agentRun (gw : Nat → GwResponse) (exec : String → String → String) (cid : String)
    (maxIter : Nat) : TurnResult :=
  loopAux gw exec cid maxIter 0 maxIter

/-- The non-streaming `/chat` JSON response shape
(`docs/API_DOCUMENTATION.md`, spec §6). -/
structure ChatJson where
  status : String
  response : Option String
  error : Option String
  iterations : Nat
  conversation_id : String
  deriving DecidableEq, Repr

/-- Text of the final assistant message of a turn, if any. -/
def lastAssistantText : List LoopMsg → Option String
  | [] => none
  | .assistantText t :: rest => (lastAssistantText rest).getD t |> some
  | _ :: rest => lastAssistantText rest

/-- Modelled from the spec: the non-streaming response built from a
finished turn — `{status:"success", response, ...}` on success and
`{status:"error", error, ...}` on failure, never silently empty
(spec §6, §7). -/
def nonStreamingResponse (cid : String) (r : TurnResult) : ChatJson :=
  { status := r.status
    response := if r.status = "success" then lastAssistantText r.messages else none
    error := if r.status = "success" then none else some (r.reason.getD "处理失败")
    iterations := r.iterations
    conversation_id := cid }

/-- Whether a wire event is a terminal event of its turn. -/
def isTerminalEv (e : WireEvent) : Bool :=
  e.1 == "done" || e.1 == "error"

/-- Whether a wire event surfaces a failure: an `error` event, or a
`done` event whose status is `error` (the designed ending of an
`IterationLimitExceeded` turn, spec §7). -/
def surfacesError (e : WireEvent) : Bool :=
  e.1 == "error" || (e.1 == "done" && e.2.status == some "error")

/-- Contents of the `response_chunk` events of an event list, in
emission order. -/
def chunkContents (es : List WireEvent) : List String :=
  es.filterMap fun e => if e.1 = "response_chunk" then e.2.content else none

/-- The `full_response` carried by the first `response_end` event of an
event list, if any. -/
def endFull (es : List WireEvent) : Option String :=
  (es.filterMap fun e => if e.1 = "response_end" then e.2.full_response else none).head?

/-- Number of events of a given type. -/
def countEv (t : String) (es : List WireEvent) : Nat :=
  es.countP fun e => e.1 == t

/-- Number of events of a given type carrying a given tool name. -/
def nameCount (t n : String) (es : List WireEvent) : Nat :=
  es.countP fun e => e.1 == t && e.2.tool_name == some n

/-- Wire-event types that precede the streaming phase of a turn
(`thinking`, `tool_call`, `tool_result`): the client handles them
without touching the accumulated message or the history. -/
def preEvent (e : WireEvent) : Bool :=
  e.1 == "thinking" || e.1 == "tool_call" || e.1 == "tool_result"

/-- Names of the running entries of a tool-call list, in order. -/
def runningNames (l : List ToolCallEntry) : List String :=
  (l.filter fun e => e.status == "running").map (·.tool_name)

/-- A concrete payload parser used to instantiate the SSE-parser
theorems on closed inputs: it accepts exactly the payload `1`. -/
def sampleParse : List Char → Option Nat :=
  fun l => if l = "1".data then some 1 else none

/-! Unfolding lemmas for `handleStreamEvent`, one per event type of the
wire protocol. -/

theorem handleStreamEvent_chunk (s : StoreState) (d : EventData) :
    handleStreamEvent s "response_chunk" d =
      ({ s with streamingMessage := s.streamingMessage ++ jsOrD (jsOr d.content d.message) "" },
        false) := rfl

theorem handleStreamEvent_tool_call (s : StoreState) (d : EventData) :
    handleStreamEvent s "tool_call" d =
      ({ s with
          currentToolCalls := s.currentToolCalls ++
            [⟨jsOrD d.tool_name "工具", "running",
              jsOrD d.message ("正在调用 " ++ jsOrD d.tool_name "工具" ++ "...")⟩]
          streamingProgress :=
            jsOrD d.message ("正在调用 " ++ jsOrD d.tool_name "工具" ++ "...") }, false) := rfl

theorem handleStreamEvent_tool_result (s : StoreState) (d : EventData) :
    handleStreamEvent s "tool_result" d =
      ({ s with
          currentToolCalls := completeFirst s.currentToolCalls (jsOrD d.tool_name "工具")
            (jsOrD d.message (jsOrD d.tool_name "工具" ++ " 执行完成"))
          streamingProgress :=
            jsOrD d.message (jsOrD d.tool_name "工具" ++ " 执行完成") }, false) := rfl

theorem handleStreamEvent_thinking (s : StoreState) (d : EventData) :
    handleStreamEvent s "thinking" d =
      ({ s with streamingProgress := jsOrD d.message "正在思考..." }, false) := rfl

theorem handleStreamEvent_response_start (s : StoreState) (d : EventData) :
    handleStreamEvent s "response_start" d =
      ({ s with streamingProgress := "正在生成回复..." }, false) := rfl

theorem handleStreamEvent_response_end (s : StoreState) (d : EventData) :
    handleStreamEvent s "response_end" d =
      ({ s with streamingProgress := "" }, false) := rfl

theorem handleStreamEvent_error (s : StoreState) (d : EventData) :
    handleStreamEvent s "error" d = ({ s with error := some "流式响应错误" }, false) := rfl

theorem handleStreamEvent_done (s : StoreState) (d : EventData) :
    handleStreamEvent s "done" d =
      (let s1 :=
        match d.conversation_id with
        | some cid => if cid = "" then s else { s with conversationId := some cid }
        | none => s
      let fullMessage := doneFullMessage s d
      let s2 := { s1 with conversationHistory :=
          s1.conversationHistory ++ [⟨"assistant", fullMessage⟩] }
      match fullMessage with
      | none => (s2, true)
      | some m =>
        let s3 :=
          if isReportResponse m then
            { s2 with reportData := some ⟨m, d.conversation_id⟩, currentStep := "result" }
          else s2
        ({ s3 with
            streamingMessage := ""
            streamingProgress := ""
            currentToolCalls := [] }, false)) := rfl

theorem processTurn_append (s : StoreState) (a b : List WireEvent) :
    processTurn s (a ++ b) = processTurn (processTurn s a) b :=
  List.foldl_append ..

theorem processTurn_cons (s : StoreState) (e : WireEvent) (es : List WireEvent) :
    processTurn s (e :: es) = processTurn (handleStreamEvent s e.1 e.2).1 es := rfl

theorem processTurn_nil (s : StoreState) : processTurn s [] = s := rfl

/-- C6. A chat request built without an explicit `max_iterations`
carries the documented default 15, with the non-streaming entry point
sending `stream: false` and the streaming one `stream: true`. -/
theorem C6_default_max_iterations (message : String) (conversationId : Option String) :
    (sendChatMessageBody message conversationId).max_iterations = 15 ∧
    (sendChatMessageBody message conversationId).stream = false ∧
    (sendChatMessageBody message conversationId).message = message ∧
    (sendChatMessageBody message conversationId).conversation_id = conversationId ∧
    (sendChatMessageStreamBody message conversationId).max_iterations = 15 ∧
    (sendChatMessageStreamBody message conversationId).stream = true ∧
    (sendChatMessageStreamBody message conversationId).message = message ∧
    (sendChatMessageStreamBody message conversationId).conversation_id = conversationId :=
  ⟨rfl, rfl, rfl, rfl, rfl, rfl, rfl, rfl⟩

/-- C5. Evaluation of the documented `/reset` endpoint on the requests
the client actually builds, with two active sessions `conv_a`, `conv_b`:
the claim expects `resetSession("conv_a")` to reset exactly `conv_a`
(leaving `["conv_b"]`), but the client sends the id in the JSON body
while the documented endpoint reads the query string, so the handler
sees no id and resets all sessions; a request carrying the id in the
query string — as the API documentation shows — would have reset exactly
one. `resetAllSessions()` resets all, as claimed. -/
theorem C5_reset_divergence :
    resetHandler ["conv_a", "conv_b"] (resetSessionRequest "conv_a") = [] ∧
    ([] : List String) ≠ ["conv_b"] ∧
    resetHandler ["conv_a", "conv_b"]
      { path := "/reset", query := [("conversation_id", "conv_a")], body := [] } =
      ["conv_b"] ∧
    resetHandler ["conv_a", "conv_b"] resetAllSessionsRequest = [] ∧
    (initializeSession (processTurn initState
        (agentRun (fun _ => .finalText ["好"]) (fun _ _ => "") "conv_a" 15).events)).conversationId
      = none ∧
    (initializeSession (processTurn initState
        (agentRun (fun _ => .finalText ["好"]) (fun _ _ => "") "conv_a" 15).events)).conversationHistory
      = [] ∧
    (initializeSession (processTurn initState
        (agentRun (fun _ => .finalText ["好"]) (fun _ _ => "") "conv_a" 15).events)).currentStep
      = "input" := by
  refine ⟨rfl, by decide, rfl, rfl, rfl, rfl, rfl⟩


/-! Lemmas for the SSE parser of `HousingAPI.sendChatMessageStream`. -/

theorem event_isPrefixOf_of_data (t : List Char) (h : "data: ".data.isPrefixOf t) :
    "event: ".data.isPrefixOf t = false := by
  obtain ⟨u, rfl⟩ := List.isPrefixOf_iff_prefix.mp h
  show "event: ".data.isPrefixOf ("data: ".data ++ u) = false
  have hd : "data: ".data = ['d', 'a', 't', 'a', ':', ' '] := rfl
  have he : "event: ".data = ['e', 'v', 'e', 'n', 't', ':', ' '] := rfl
  rw [hd, he]
  simp [List.isPrefixOf]

theorem data_nonempty (t : List Char) (h : "data: ".data.isPrefixOf t) : t ≠ [] := by
  obtain ⟨u, rfl⟩ := List.isPrefixOf_iff_prefix.mp h
  simp [show "data: ".data = ['d', 'a', 't', 'a', ':', ' '] from rfl]

theorem sseLine_data_noEvent {α : Type} (parse : List Char → Option α) (st : SSELineState α)
    (line : List Char) (hne : st.currentEvent = none)
    (h : "data: ".data.isPrefixOf (trimChars line)) :
    sseLine parse st line = st := by
  unfold sseLine
  simp only [event_isPrefixOf_of_data _ h, h, hne, Bool.false_eq_true, if_false, if_true]



theorem sseLine_data_badParse {α : Type} (parse : List Char → Option α) (st : SSELineState α)
    (line : List Char) (h : "data: ".data.isPrefixOf (trimChars line))
    (hp : parse ((trimChars line).drop 6) = none) :
    sseLine parse st line = st := by
  unfold sseLine
  simp only [event_isPrefixOf_of_data _ h, h, hp, Bool.false_eq_true, if_false, if_true]
  cases st.currentEvent <;> rfl

theorem splitNl_no_newline (l : List Char) (h : '\n' ∉ l) : splitNl l = ([], l) := by
  induction l with
  | nil => rfl
  | cons c t ih =>
    simp only [List.mem_cons, not_or] at h
    unfold splitNl
    rw [if_neg (fun hc => h.1 hc.symm), ih h.2]

theorem splitNl_newline (b rest : List Char) (h : '\n' ∉ b) :
    splitNl (b ++ '\n' :: rest) = (b :: (splitNl rest).1, (splitNl rest).2) := by
  induction b with
  | nil => simp [splitNl]
  | cons c t ih =>
    simp only [List.mem_cons, not_or] at h
    rw [List.cons_append]
    simp only [splitNl]
    rw [if_neg (fun hc => h.1 hc.symm), ih h.2]

theorem splitNl_rest_no_newline (l : List Char) : '\n' ∉ (splitNl l).2 := by
  induction l with
  | nil => simp [splitNl]
  | cons c t ih =>
    unfold splitNl
    by_cases hc : c = '\n'
    · simpa [hc] using ih
    · rw [if_neg hc]
      cases hsp : splitNl t with
      | mk lines r =>
        rw [hsp] at ih
        cases lines with
        | nil =>
          show '\n' ∉ c :: r
          simp only [List.mem_cons, not_or]
          exact ⟨fun hn => hc hn.symm, ih⟩
        | cons hd tl =>
          show '\n' ∉ r
          exact ih

theorem feedChar_newline {α : Type} (parse : List Char → Option α) (st : SSEFeedState α) :
    feedChar parse st '\n' = ⟨sseLine parse st.line st.buffer, []⟩ := rfl

theorem feedChunk_eq_foldl {α : Type} (parse : List Char → Option α) :
    ∀ (chunk : List Char) (st : SSEFeedState α), '\n' ∉ st.buffer →
      chunk.foldl (feedChar parse) st = feedChunk parse st chunk := by
  intro chunk
  induction chunk with
  | nil =>
    intro st h
    simp [feedChunk, splitNl_no_newline _ h]
  | cons c rest ih =>
    intro st h
    rw [List.foldl_cons]
    by_cases hc : c = '\n'
    · subst hc
      rw [feedChar_newline, ih _ (by simp)]
      unfold feedChunk
      rw [splitNl_newline _ _ h]
      simp
    · have hstep : feedChar parse st c = ⟨st.line, st.buffer ++ [c]⟩ := by
        simp [feedChar, hc]
      have hb : '\n' ∉ st.buffer ++ [c] := by
        simp only [List.mem_append, List.mem_singleton, not_or]
        exact ⟨h, fun hn => hc hn.symm⟩
      rw [hstep, ih _ hb]
      unfold feedChunk
      simp [List.append_assoc]

theorem feedAll_eq_feedChunk {α : Type} (parse : List Char → Option α) :
    ∀ (chunks : List (List Char)) (st : SSEFeedState α), '\n' ∉ st.buffer →
      feedAll parse st chunks = feedChunk parse st chunks.flatten := by
  intro chunks
  induction chunks with
  | nil =>
    intro st h
    simp [feedAll, feedChunk, splitNl_no_newline _ h]
  | cons ch rest ih =>
    intro st h
    show feedAll parse (feedChunk parse st ch) rest = feedChunk parse st (ch ++ rest.flatten)
    rw [ih _ (splitNl_rest_no_newline (st.buffer ++ ch))]
    rw [← feedChunk_eq_foldl parse (ch ++ rest.flatten) st h, List.foldl_append,
      feedChunk_eq_foldl parse ch st h,
      feedChunk_eq_foldl parse rest.flatten _ (splitNl_rest_no_newline (st.buffer ++ ch))]

/-- C9. The SSE parser delivers a `data:` line only under a current
`event:` type (a data line with no current event is discarded
unchanged); a data line whose payload fails to parse is skipped without
touching the parser state, so the rest of the stream is processed
normally; and feeding the stream chunk by chunk produces exactly the
state — in particular the same emitted `(eventType, data)` callback
sequence — as feeding the whole byte stream at once, so the callbacks do
not depend on how the stream is cut into chunks (the incomplete trailing
line is buffered). -/
theorem C9_sse_stream_parsing {α : Type} (parse : List Char → Option α) :
    (∀ (st : SSELineState α) (line : List Char), st.currentEvent = none →
      "data: ".data.isPrefixOf (trimChars line) → sseLine parse st line = st) ∧
    (∀ (st : SSELineState α) (line : List Char),
      "data: ".data.isPrefixOf (trimChars line) →
      parse ((trimChars line).drop 6) = none → sseLine parse st line = st) ∧
    (∀ chunks : List (List Char),
      feedAll parse sseInit chunks = feedChunk parse sseInit chunks.flatten) :=
  ⟨fun st line h1 h2 => sseLine_data_noEvent parse st line h1 h2,
   fun st line h1 h2 => sseLine_data_badParse parse st line h1 h2,
   fun chunks => feedAll_eq_feedChunk parse chunks sseInit (by simp [sseInit])⟩

/-- Closed instance of the C9 theorem: a dangling `data:` line is
discarded, an unparsable payload is skipped, and a split stream emits
the same callbacks as the unsplit one. -/
theorem C9_sse_stream_parsing_witness :
    sseLine sampleParse ⟨none, []⟩ "data: 1".data = ⟨none, []⟩ ∧
    sseLine sampleParse ⟨some "e".data, []⟩ "data: x".data = ⟨some "e".data, []⟩ ∧
    feedAll sampleParse sseInit ["event: e\nda".data, "ta: 1\n".data]
      = feedChunk sampleParse sseInit (["event: e\nda".data, "ta: 1\n".data]).flatten :=
  ⟨(C9_sse_stream_parsing sampleParse).1 _ _ rfl (by decide),
   (C9_sse_stream_parsing sampleParse).2.1 _ _ (by decide) (by decide),
   (C9_sse_stream_parsing sampleParse).2.2 _⟩

theorem loopAux_iterations_le (gw : Nat → GwResponse) (exec : String → String → String)
    (cid : String) (maxIter : Nat) :
    ∀ (fuel iter : Nat), iter < maxIter →
      (loopAux gw exec cid maxIter iter fuel).iterations ≤ maxIter := by
  intro fuel
  induction fuel with
  | zero =>
    intro iter h
    simp only [loopAux]
    omega
  | succ fuel ih =>
    intro iter h
    cases hk : gw iter with
    | finalText chunks =>
      unfold loopAux
      rw [hk]
      simpa using h
    | failure msg =>
      unfold loopAux
      rw [hk]
      simp
      omega
    | toolCalls reqs =>
      unfold loopAux
      rw [hk]
      by_cases hlim : iter + 1 ≥ maxIter
      · simp [hlim]
        omega
      · simpa [hlim] using ih (iter + 1) (by omega)

theorem loopAux_fuel_irrelevant (gw : Nat → GwResponse) (exec : String → String → String)
    (cid : String) (maxIter : Nat) :
    ∀ (f g iter : Nat), iter < maxIter → maxIter ≤ iter + f → maxIter ≤ iter + g →
      loopAux gw exec cid maxIter iter f = loopAux gw exec cid maxIter iter g := by
  intro f
  induction f with
  | zero =>
    intro g iter h1 h2 h3
    omega
  | succ f ih =>
    intro g iter h1 h2 h3
    cases g with
    | zero => omega
    | succ g =>
      cases hk : gw iter with
      | finalText chunks =>
        unfold loopAux
        rw [hk]
      | failure msg =>
        unfold loopAux
        rw [hk]
      | toolCalls reqs =>
        unfold loopAux
        rw [hk]
        by_cases hlim : iter + 1 ≥ maxIter
        · simp [hlim]
        · simp [hlim, ih g (iter + 1) (by omega) (by omega) (by omega)]

theorem loopAux_ILE (gw : Nat → GwResponse) (exec : String → String → String)
    (cid : String) (maxIter : Nat) :
    ∀ (fuel iter : Nat), iter < maxIter →
      (loopAux gw exec cid maxIter iter fuel).reason = some "IterationLimitExceeded" →
      (loopAux gw exec cid maxIter iter fuel).iterations = maxIter ∧
      ∃ pre reqs, (loopAux gw exec cid maxIter iter fuel).messages
        = pre ++ roundMsgs exec reqs := by
  intro fuel
  induction fuel with
  | zero =>
    intro iter h hr
    simp only [loopAux] at hr
    simp at hr
  | succ fuel ih =>
    intro iter h hr
    cases hk : gw iter with
    | finalText chunks =>
      unfold loopAux at hr
      rw [hk] at hr
      simp at hr
    | failure msg =>
      unfold loopAux at hr
      rw [hk] at hr
      simp at hr
    | toolCalls reqs =>
      unfold loopAux at hr ⊢
      rw [hk] at hr ⊢
      by_cases hlim : iter + 1 ≥ maxIter
      · simp [hlim] at hr ⊢
        exact ⟨by omega, [], reqs, by simp⟩
      · simp [hlim] at hr ⊢
        obtain ⟨h1, pre, reqs2, h2⟩ := ih (iter + 1) (by omega) hr
        refine ⟨h1, roundMsgs exec reqs ++ pre, reqs2, ?_⟩
        simp only [List.append_assoc]
        rw [h2]

theorem loopAux_allTools (gw : Nat → GwResponse) (exec : String → String → String)
    (cid : String) (maxIter : Nat) (hgw : ∀ k, (gw k).requestsTools = true) :
    ∀ (fuel iter : Nat), iter < maxIter → maxIter ≤ iter + fuel →
      (loopAux gw exec cid maxIter iter fuel).reason = some "IterationLimitExceeded" ∧
      (loopAux gw exec cid maxIter iter fuel).status = "error" := by
  intro fuel
  induction fuel with
  | zero =>
    intro iter h1 h2
    omega
  | succ fuel ih =>
    intro iter h1 h2
    cases hk : gw iter with
    | finalText chunks =>
      have := hgw iter
      rw [hk] at this
      simp [GwResponse.requestsTools] at this
    | failure msg =>
      have := hgw iter
      rw [hk] at this
      simp [GwResponse.requestsTools] at this
    | toolCalls reqs =>
      unfold loopAux
      rw [hk]
      by_cases hlim : iter + 1 ≥ maxIter
      · simp [hlim]
      · simpa [hlim] using ih (iter + 1) (by omega) (by omega)

theorem roundEvents_not_terminal (exec : String → String → String)
    (reqs : List (String × String)) :
    ∀ e ∈ roundEvents exec reqs, isTerminalEv e = false := by
  intro e he
  rcases List.mem_append.mp he with h | h
  · obtain ⟨r, _, rfl⟩ := List.mem_map.mp h
    rfl
  · obtain ⟨r, _, rfl⟩ := List.mem_map.mp h
    rfl

theorem loopAux_terminal (gw : Nat → GwResponse) (exec : String → String → String)
    (cid : String) (maxIter : Nat) :
    ∀ (fuel iter : Nat), ∃ init t,
      (loopAux gw exec cid maxIter iter fuel).events = init ++ [t] ∧
      isTerminalEv t = true ∧ ∀ e ∈ init, isTerminalEv e = false := by
  intro fuel
  induction fuel with
  | zero =>
    intro iter
    exact ⟨[], errorEv "loop interrupted", rfl, rfl, by simp⟩
  | succ fuel ih =>
    intro iter
    cases hk : gw iter with
    | finalText chunks =>
      refine ⟨thinkingEv :: responseStartEv (iter + 1) ::
        (chunks.map responseChunkEv ++ [responseEndEv (joinList chunks)]),
        doneEv "success" (iter + 1) cid, ?_, rfl, ?_⟩
      · unfold loopAux
        rw [hk]
        simp
      · intro e he
        rcases List.mem_cons.mp he with rfl | he
        · rfl
        rcases List.mem_cons.mp he with rfl | he
        · rfl
        rcases List.mem_append.mp he with he | he
        · obtain ⟨c, _, rfl⟩ := List.mem_map.mp he
          rfl
        · simp at he
          subst he
          rfl
    | failure msg =>
      refine ⟨[thinkingEv], errorEv msg, ?_, rfl, ?_⟩
      · unfold loopAux
        rw [hk]
        rfl
      · intro e he
        simp at he
        subst he
        rfl
    | toolCalls reqs =>
      by_cases hlim : iter + 1 ≥ maxIter
      · refine ⟨thinkingEv :: roundEvents exec reqs, doneEv "error" (iter + 1) cid, ?_, rfl, ?_⟩
        · unfold loopAux
          rw [hk]
          simp [hlim]
        · intro e he
          rcases List.mem_cons.mp he with rfl | he
          · rfl
          · exact roundEvents_not_terminal exec reqs e he
      · obtain ⟨init, t, heq, hterm, hinit⟩ := ih (iter + 1)
        refine ⟨thinkingEv :: (roundEvents exec reqs ++ init), t, ?_, hterm, ?_⟩
        · unfold loopAux
          rw [hk]
          simp [hlim, heq]
        · intro e he
          rcases List.mem_cons.mp he with rfl | he
          · rfl
          rcases List.mem_append.mp he with he | he
          · exact roundEvents_not_terminal exec reqs e he
          · exact hinit e he

theorem loopAux_error_surfaces (gw : Nat → GwResponse) (exec : String → String → String)
    (cid : String) (maxIter : Nat) :
    ∀ (fuel iter : Nat), (loopAux gw exec cid maxIter iter fuel).status = "error" →
      ∃ init t, (loopAux gw exec cid maxIter iter fuel).events = init ++ [t] ∧
        surfacesError t = true := by
  intro fuel
  induction fuel with
  | zero =>
    intro iter _
    exact ⟨[], errorEv "loop interrupted", rfl, rfl⟩
  | succ fuel ih =>
    intro iter hs
    cases hk : gw iter with
    | finalText chunks =>
      unfold loopAux at hs
      rw [hk] at hs
      simp at hs
    | failure msg =>
      refine ⟨[thinkingEv], errorEv msg, ?_, rfl⟩
      unfold loopAux
      rw [hk]
      rfl
    | toolCalls reqs =>
      by_cases hlim : iter + 1 ≥ maxIter
      · refine ⟨thinkingEv :: roundEvents exec reqs, doneEv "error" (iter + 1) cid, ?_, rfl⟩
        unfold loopAux
        rw [hk]
        simp [hlim]
      · unfold loopAux at hs ⊢
        rw [hk] at hs ⊢
        simp [hlim] at hs
        obtain ⟨init, t, heq, hterm⟩ := ih (iter + 1) hs
        refine ⟨thinkingEv :: (roundEvents exec reqs ++ init), t, ?_, hterm⟩
        simp [hlim, heq]

theorem done_state (s : StoreState) (d : EventData) (m : String)
    (hm : doneFullMessage s d = some m) :
    (handleStreamEvent s "done" d).1.conversationHistory
      = s.conversationHistory ++ [⟨"assistant", some m⟩] ∧
    (handleStreamEvent s "done" d).1.streamingMessage = "" ∧
    (handleStreamEvent s "done" d).1.streamingProgress = "" ∧
    (handleStreamEvent s "done" d).1.currentToolCalls = [] := by
  rw [handleStreamEvent_done]
  simp only [hm]
  cases hcid : d.conversation_id with
  | none => split_ifs <;> simp
  | some cid =>
    by_cases hc : cid = ""
    · simp only [hc, if_true]
      split_ifs <;> simp
    · simp only [hc, if_false]
      split_ifs <;> simp

/-- C3. For every turn the iteration counter at completion is at most
`max_iterations` (for any `max_iterations ≥ 1`, the documented range);
the result is unchanged by giving the loop any extra fuel, so the loop
never runs an unbounded number of iterations; when the turn ends with
reason `IterationLimitExceeded` the counter equals `max_iterations` and
the conversation ends with that round's tool-result messages already
appended; and a gateway that always requests tool calls always drives
the turn into `IterationLimitExceeded` with an error status. -/
theorem C3_iteration_limit (gw : Nat → GwResponse) (exec : String → String → String)
    (cid : String) (maxIter : Nat) (h : 1 ≤ maxIter) :
    (agentRun gw exec cid maxIter).iterations ≤ maxIter ∧
    (∀ extra, loopAux gw exec cid maxIter 0 (maxIter + extra) = agentRun gw exec cid maxIter) ∧
    ((agentRun gw exec cid maxIter).reason = some "IterationLimitExceeded" →
      (agentRun gw exec cid maxIter).iterations = maxIter ∧
      ∃ pre reqs, (agentRun gw exec cid maxIter).messages = pre ++ roundMsgs exec reqs) ∧
    ((∀ k, (gw k).requestsTools = true) →
      (agentRun gw exec cid maxIter).reason = some "IterationLimitExceeded" ∧
      (agentRun gw exec cid maxIter).status = "error") :=
  ⟨loopAux_iterations_le gw exec cid maxIter maxIter 0 h,
   fun extra => loopAux_fuel_irrelevant gw exec cid maxIter (maxIter + extra) maxIter 0 h
     (by omega) (by omega),
   loopAux_ILE gw exec cid maxIter maxIter 0 h,
   fun hgw => loopAux_allTools gw exec cid maxIter hgw maxIter 0 h (by omega)⟩

/-- Closed instance of the C3 theorem: Scenario D — `max_iterations = 1`
with a gateway that always requests one tool call ends after exactly one
iteration with `IterationLimitExceeded`. -/
theorem C3_iteration_limit_witness :
    (1 : Nat) ≤ 1 ∧
    (agentRun (fun _ => .toolCalls [("policy_lookup", "a")]) (fun _ _ => "ok") "c" 1).iterations ≤ 1 ∧
    (agentRun (fun _ => .toolCalls [("policy_lookup", "a")]) (fun _ _ => "ok") "c" 1).reason
      = some "IterationLimitExceeded" :=
  ⟨by decide,
   (C3_iteration_limit (fun _ => .toolCalls [("policy_lookup", "a")]) (fun _ _ => "ok") "c" 1
     (by decide)).1,
   ((C3_iteration_limit (fun _ => .toolCalls [("policy_lookup", "a")]) (fun _ _ => "ok") "c" 1
     (by decide)).2.2.2 (fun _ => rfl)).1⟩

/-- C4 (amended). A `done` or `error` event is the unique terminal event
of every turn — nothing follows it and no earlier event of the turn is
`done` or `error`; and after the client processes a `done` event whose
assembled message is defined (nonempty accumulated chunks, or a
`response`/`message` field in the done data), the streaming state is
empty and the assembled assistant message has been appended to the
conversation history. (As stated the claim also covered a `done` with no
assembled text; the counterexample shows the cleanup is skipped there.) -/
theorem C4_terminal_and_cleanup (gw : Nat → GwResponse) (exec : String → String → String)
    (cid : String) (maxIter : Nat) :
    (∃ init t, (agentRun gw exec cid maxIter).events = init ++ [t] ∧
      isTerminalEv t = true ∧ ∀ e ∈ init, isTerminalEv e = false) ∧
    (∀ (s : StoreState) (d : EventData) (m : String), doneFullMessage s d = some m →
      (handleStreamEvent s "done" d).1.streamingMessage = "" ∧
      (handleStreamEvent s "done" d).1.streamingProgress = "" ∧
      (handleStreamEvent s "done" d).1.currentToolCalls = [] ∧
      (handleStreamEvent s "done" d).1.conversationHistory
        = s.conversationHistory ++ [⟨"assistant", some m⟩]) :=
  ⟨loopAux_terminal gw exec cid maxIter maxIter 0,
   fun s d m hm => ⟨(done_state s d m hm).2.1, (done_state s d m hm).2.2.1,
     (done_state s d m hm).2.2.2, (done_state s d m hm).1⟩⟩

/-- Closed instance of the C4 theorem: a turn with streamed text `30%`
leaves empty streaming state after `done`. -/
theorem C4_terminal_and_cleanup_witness :
    doneFullMessage { initState with streamingMessage := "30%" } {} = some "30%" ∧
    (handleStreamEvent { initState with streamingMessage := "30%" } "done" {}).1.currentToolCalls
      = [] ∧
    (handleStreamEvent { initState with streamingMessage := "30%" } "done" {}).1.conversationHistory
      = [⟨"assistant", some "30%"⟩] :=
  ⟨by decide,
   ((C4_terminal_and_cleanup (fun _ => .finalText ["30%"]) (fun _ _ => "") "c" 1).2
     { initState with streamingMessage := "30%" } {} "30%" (by decide)).2.2.1,
   by simpa using ((C4_terminal_and_cleanup (fun _ => .finalText ["30%"]) (fun _ _ => "") "c" 1).2
     { initState with streamingMessage := "30%" } {} "30%" (by decide)).2.2.2⟩

/-- C4 counterexample. Scenario D's turn (iteration limit hit after one
tool round, no streamed text) ends with a terminal `done` event, yet
after the client processes the whole turn its `currentToolCalls` is not
empty: the `done` branch throws on the undefined assembled message
before reaching its cleanup, so the streaming state is not cleared —
the claim as stated is false for this turn. -/
theorem C4_counterexample :
    ((agentRun (fun _ => .toolCalls [("policy_lookup", "a")]) (fun _ _ => "ok") "c" 1).events.getLast?).map
        Prod.fst = some "done" ∧
    (processTurn initState
      (agentRun (fun _ => .toolCalls [("policy_lookup", "a")]) (fun _ _ => "ok") "c" 1).events).currentToolCalls
      ≠ [] := by
  refine ⟨rfl, by decide⟩

/-- C7. Every turn that finishes with status `error` ends with an event
that surfaces the failure — an `error` event, or the `done`-with-error
ending designed for `IterationLimitExceeded`; the non-streaming response
for such a turn carries `status = "error"` and a non-null `error` field;
and the client records a visible error state whenever it processes an
`error` event. -/
theorem C7_failures_surfaced (gw : Nat → GwResponse) (exec : String → String → String)
    (cid : String) (maxIter : Nat) (h : (agentRun gw exec cid maxIter).status = "error") :
    (∃ init t, (agentRun gw exec cid maxIter).events = init ++ [t] ∧ surfacesError t = true) ∧
    (nonStreamingResponse cid (agentRun gw exec cid maxIter)).status = "error" ∧
    (nonStreamingResponse cid (agentRun gw exec cid maxIter)).error ≠ none ∧
    (∀ (s : StoreState) (d : EventData), (handleStreamEvent s "error" d).1.error ≠ none) := by
  refine ⟨loopAux_error_surfaces gw exec cid maxIter maxIter 0 h, ?_, ?_, ?_⟩
  · simp [nonStreamingResponse, h]
  · simp [nonStreamingResponse, h]
  · intro s d
    rw [handleStreamEvent_error]
    simp

/-- Closed instance of the C7 theorem: a gateway failure yields an
error-status non-streaming response with a non-null error field. -/
theorem C7_failures_surfaced_witness :
    (agentRun (fun _ => .failure "boom") (fun _ _ => "") "c" 5).status = "error" ∧
    (nonStreamingResponse "c" (agentRun (fun _ => .failure "boom") (fun _ _ => "") "c" 5)).error
      ≠ none :=
  ⟨by decide,
   (C7_failures_surfaced (fun _ => .failure "boom") (fun _ _ => "") "c" 5 (by decide)).2.2.1⟩

set_option maxHeartbeats 1000000 in
theorem handleStreamEvent_other (s : StoreState) (d : EventData) (et : String)
    (h1 : et ≠ "done") (h2 : et ≠ "complete") :
    (handleStreamEvent s et d).1.currentStep = s.currentStep ∧
    (handleStreamEvent s et d).1.reportData = s.reportData := by
  unfold handleStreamEvent
  split_ifs with h3 h4 h5 h6 h7 h8 h9 h10
  · exact ⟨rfl, rfl⟩
  · exact ⟨rfl, rfl⟩
  · exact ⟨rfl, rfl⟩
  · exact ⟨rfl, rfl⟩
  · exact ⟨rfl, rfl⟩
  · exact ⟨rfl, rfl⟩
  · exact ⟨rfl, rfl⟩
  · rcases h10 with h | h
    · exact (h2 h).elim
    · exact (h1 h).elim
  · exact ⟨rfl, rfl⟩

/-- C10. The client sets `currentStep = "result"` and `reportData` only
from the `done`/`complete` branch and only when the assembled assistant
message contains one of the three report markers (`isReportResponse`):
every other event leaves `currentStep` and `reportData` unchanged; a
`done` whose assembled message carries a marker switches to the result
step and records the report; a `done` whose message lacks the markers,
or has no defined message at all, leaves both unchanged. -/
theorem C10_report_transition (s : StoreState) (d : EventData) :
    (∀ et : String, et ≠ "done" → et ≠ "complete" →
      (handleStreamEvent s et d).1.currentStep = s.currentStep ∧
      (handleStreamEvent s et d).1.reportData = s.reportData) ∧
    (∀ m : String, doneFullMessage s d = some m → isReportResponse m = true →
      (handleStreamEvent s "done" d).1.currentStep = "result" ∧
      (handleStreamEvent s "done" d).1.reportData = some ⟨m, d.conversation_id⟩) ∧
    (∀ m : String, doneFullMessage s d = some m → isReportResponse m = false →
      (handleStreamEvent s "done" d).1.currentStep = s.currentStep ∧
      (handleStreamEvent s "done" d).1.reportData = s.reportData) ∧
    (doneFullMessage s d = none →
      (handleStreamEvent s "done" d).1.currentStep = s.currentStep ∧
      (handleStreamEvent s "done" d).1.reportData = s.reportData) := by
  refine ⟨fun et h1 h2 => handleStreamEvent_other s d et h1 h2, ?_, ?_, ?_⟩
  · intro m hm hrep
    simp only [handleStreamEvent_done, hm, hrep, if_true]
    constructor <;> trivial
  · intro m hm hrep
    simp only [handleStreamEvent_done, hm, hrep, Bool.false_eq_true, if_false]
    cases hcid : d.conversation_id with
    | none => constructor <;> trivial
    | some cid =>
      by_cases hc : cid = ""
      · simp only [hc, if_true]
        constructor <;> trivial
      · simp only [hc, if_false]
        constructor <;> trivial
  · intro hm
    simp only [handleStreamEvent_done, hm]
    cases hcid : d.conversation_id with
    | none => constructor <;> trivial
    | some cid =>
      by_cases hc : cid = ""
      · simp only [hc, if_true]
        constructor <;> trivial
      · simp only [hc, if_false]
        constructor <;> trivial

/-- Closed instance of the C10 theorem: a `thinking` event leaves the
step and report unchanged, a `done` with the marker `总成本概览` in the
streamed text switches to the result step, and a `done` with plain text
leaves them unchanged. -/
theorem C10_report_transition_witness :
    ((handleStreamEvent initState "thinking" {}).1.currentStep = initState.currentStep ∧
      (handleStreamEvent initState "thinking" {}).1.reportData = initState.reportData) ∧
    ((handleStreamEvent { initState with streamingMessage := "x总成本概览y" } "done" {}).1.currentStep
        = "result") ∧
    ((handleStreamEvent { initState with streamingMessage := "你好" } "done" {}).1.currentStep
        = ({ initState with streamingMessage := "你好" } : StoreState).currentStep) :=
  ⟨(C10_report_transition initState {}).1 "thinking" (by decide) (by decide),
   ((C10_report_transition { initState with streamingMessage := "x总成本概览y" } {}).2.1
     "x总成本概览y" rfl (by decide)).1,
   ((C10_report_transition { initState with streamingMessage := "你好" } {}).2.2.1
     "你好" rfl (by decide)).1⟩

theorem lastIsUser_concat_user (l : List HistMessage) (input : String) :
    lastIsUser (l ++ [⟨"user", some input⟩]) = true := by
  simp [lastIsUser]

/-- C8 (amended). `sendMessage` first appends the user message and, when
the awaited request rejects, removes it again and returns to the input
step, so the history equals its pre-call value; `sendMessageStream`
behaves the same way when the stream rejects before delivering any
events. (As stated the claim asserted history restoration for every
rejection of the streaming request; the counterexample shows a rejection
arriving after a `done` event leaves the appended messages in place.) -/
theorem C8_history_restored_on_failure (s : StoreState) (input : String) (e : JsError)
    (h : jsTrim input ≠ "") :
    (sendMessageRun s input (Except.error e)).conversationHistory = s.conversationHistory ∧
    (sendMessageRun s input (Except.error e)).currentStep = "input" ∧
    (sendMessageStreamRun s input [] true).conversationHistory = s.conversationHistory ∧
    (sendMessageStreamRun s input [] true).currentStep = "input" := by
  unfold sendMessageRun sendMessageStreamRun
  rw [if_neg h, if_neg h]
  simp only [processTurn_nil]
  refine ⟨?_, ?_, ?_, ?_⟩ <;>
    simp [handleErrorState, lastIsUser_concat_user]

/-- Closed instance of the C8 theorem: a rejected request leaves the
history as it was. -/
theorem C8_history_restored_on_failure_witness :
    jsTrim "你好" ≠ "" ∧
    (sendMessageRun initState "你好" (Except.error {})).conversationHistory
      = initState.conversationHistory :=
  ⟨by decide, (C8_history_restored_on_failure initState "你好" {} (by decide)).1⟩

/-- C8 counterexample. A streaming request that rejects after the stream
already delivered a full successful turn (`reader.read()` can reject at
any point, also after `done` was processed): the `catch` block only pops
the last entry when it is the user message, but the last entry is the
assistant message appended at `done`, so the history does not equal its
pre-call value — the claim as stated is false for this call. -/
theorem C8_counterexample :
    (sendMessageStreamRun initState "hi"
        (agentRun (fun _ => .finalText ["好的"]) (fun _ _ => "") "c1" 15).events
        true).conversationHistory
      ≠ initState.conversationHistory := by
  decide

theorem jsOrD_content (c : String) : jsOrD (jsOr (some c) none) "" = c := by
  by_cases hc : c = "" <;> simp [jsOr, jsOrD, hc]

theorem processTurn_chunks (chunks : List String) : ∀ s : StoreState,
    processTurn s (chunks.map responseChunkEv)
      = { s with streamingMessage := s.streamingMessage ++ joinList chunks } := by
  induction chunks with
  | nil =>
    intro s
    show s = _
    simp [joinList]
  | cons c cs ih =>
    intro s
    rw [List.map_cons, processTurn_cons]
    have h1 : (handleStreamEvent s (responseChunkEv c).1 (responseChunkEv c).2).1
        = { s with streamingMessage := s.streamingMessage ++ c } := by
      rw [show (responseChunkEv c).1 = "response_chunk" from rfl, handleStreamEvent_chunk]
      show ({ s with streamingMessage :=
        s.streamingMessage ++ jsOrD (jsOr (some c) none) "" } : StoreState) = _
      rw [jsOrD_content]
    rw [h1, ih]
    simp [joinList, String.append_assoc]

theorem preEvent_step (s : StoreState) (e : WireEvent) (h : preEvent e = true) :
    (handleStreamEvent s e.1 e.2).1.streamingMessage = s.streamingMessage ∧
    (handleStreamEvent s e.1 e.2).1.conversationHistory = s.conversationHistory := by
  have h' : e.1 = "thinking" ∨ e.1 = "tool_call" ∨ e.1 = "tool_result" := by
    simpa [preEvent, Bool.or_eq_true, beq_iff_eq, or_assoc] using h
  rcases h' with h1 | h1 | h1 <;> rw [h1]
  · rw [handleStreamEvent_thinking]
    exact ⟨rfl, rfl⟩
  · rw [handleStreamEvent_tool_call]
    exact ⟨rfl, rfl⟩
  · rw [handleStreamEvent_tool_result]
    exact ⟨rfl, rfl⟩

theorem processTurn_preEvents : ∀ (es : List WireEvent) (s : StoreState),
    (∀ e ∈ es, preEvent e = true) →
    (processTurn s es).streamingMessage = s.streamingMessage ∧
    (processTurn s es).conversationHistory = s.conversationHistory := by
  intro es
  induction es with
  | nil =>
    intro s _
    exact ⟨rfl, rfl⟩
  | cons e t ih =>
    intro s h
    rw [processTurn_cons]
    have he := preEvent_step s e (h e (List.mem_cons_self e t))
    have ht := ih ((handleStreamEvent s e.1 e.2).1) (fun x hx => h x (List.mem_cons_of_mem e hx))
    exact ⟨ht.1.trans he.1, ht.2.trans he.2⟩

theorem preEvent_round (exec : String → String → String) (reqs : List (String × String)) :
    ∀ e ∈ thinkingEv :: roundEvents exec reqs, preEvent e = true := by
  intro e he
  rcases List.mem_cons.mp he with rfl | he
  · rfl
  rcases List.mem_append.mp he with he | he
  · obtain ⟨r, _, rfl⟩ := List.mem_map.mp he
    rfl
  · obtain ⟨r, _, rfl⟩ := List.mem_map.mp he
    rfl

theorem chunkContents_append (a b : List WireEvent) :
    chunkContents (a ++ b) = chunkContents a ++ chunkContents b := by
  unfold chunkContents
  exact List.filterMap_append a b _

theorem chunkContents_preEvents (es : List WireEvent) (h : ∀ e ∈ es, preEvent e = true) :
    chunkContents es = [] := by
  apply List.filterMap_eq_nil_iff.mpr
  intro e he
  have h' : e.1 = "thinking" ∨ e.1 = "tool_call" ∨ e.1 = "tool_result" := by
    simpa [preEvent, Bool.or_eq_true, beq_iff_eq, or_assoc] using h e he
  rcases h' with h1 | h1 | h1 <;> simp [h1]

theorem chunkContents_tail (chunks : List String) (full stv cidv : String) (i i2 : Nat) :
    chunkContents (responseStartEv i ::
        (chunks.map responseChunkEv ++ [responseEndEv full, doneEv stv i2 cidv])) = chunks := by
  induction chunks with
  | nil => rfl
  | cons c cs ihc => exact congrArg (List.cons c) ihc

theorem endFull_preEvents (pre tail : List WireEvent) (h : ∀ e ∈ pre, preEvent e = true) :
    endFull (pre ++ tail) = endFull tail := by
  unfold endFull
  rw [List.filterMap_append]
  rw [show pre.filterMap (fun e => if e.1 = "response_end" then e.2.full_response else none)
      = [] from ?_]
  · rfl
  · apply List.filterMap_eq_nil_iff.mpr
    intro e he
    have h' : e.1 = "thinking" ∨ e.1 = "tool_call" ∨ e.1 = "tool_result" := by
      simpa [preEvent, Bool.or_eq_true, beq_iff_eq, or_assoc] using h e he
    rcases h' with h1 | h1 | h1 <;> simp [h1]

theorem endFull_tail (chunks : List String) (full stv cidv : String) (i i2 : Nat) :
    endFull (responseStartEv i ::
        (chunks.map responseChunkEv ++ [responseEndEv full, doneEv stv i2 cidv])) = some full := by
  induction chunks with
  | nil => rfl
  | cons c cs ihc => exact ihc

theorem processTurn_end_done (s : StoreState) (full stv cidv : String) (i2 : Nat)
    (hne : s.streamingMessage ≠ "") :
    (processTurn s [responseEndEv full, doneEv stv i2 cidv]).conversationHistory
      = s.conversationHistory ++ [⟨"assistant", some s.streamingMessage⟩] := by
  have h3 : processTurn s [responseEndEv full, doneEv stv i2 cidv]
      = (handleStreamEvent { s with streamingProgress := "" } "done" (doneEv stv i2 cidv).2).1 :=
    rfl
  rw [h3]
  have hm : doneFullMessage { s with streamingProgress := "" } (doneEv stv i2 cidv).2
      = some s.streamingMessage := by
    simp [doneFullMessage, doneEv, jsOr, hne]
  exact (done_state _ _ _ hm).1

theorem processTurn_streaming_tail (s : StoreState) (chunks : List String)
    (full stv cidv : String) (i i2 : Nat) (hsm : s.streamingMessage = "")
    (hne : joinList chunks ≠ "") :
    (processTurn s (responseStartEv i ::
        (chunks.map responseChunkEv ++ [responseEndEv full, doneEv stv i2 cidv]))).conversationHistory
      = s.conversationHistory ++ [⟨"assistant", some (joinList chunks)⟩] := by
  have h1 : processTurn s (responseStartEv i ::
        (chunks.map responseChunkEv ++ [responseEndEv full, doneEv stv i2 cidv]))
      = processTurn { s with streamingProgress := "正在生成回复..." }
          (chunks.map responseChunkEv ++ [responseEndEv full, doneEv stv i2 cidv]) := rfl
  rw [h1, processTurn_append, processTurn_chunks]
  rw [processTurn_end_done]
  · show s.conversationHistory ++ [⟨"assistant", some (s.streamingMessage ++ joinList chunks)⟩]
      = s.conversationHistory ++ [⟨"assistant", some (joinList chunks)⟩]
    rw [hsm, String.empty_append]
  · show s.streamingMessage ++ joinList chunks ≠ ""
    rw [hsm, String.empty_append]
    exact hne

theorem loopAux_step_toolCalls (gw : Nat → GwResponse) (exec : String → String → String)
    (cid : String) (maxIter iter fuel : Nat) (reqs : List (String × String))
    (hk : gw iter = GwResponse.toolCalls reqs) (hlim : ¬ iter + 1 ≥ maxIter) :
    ∀ r, loopAux gw exec cid maxIter (iter + 1) fuel = r →
      loopAux gw exec cid maxIter iter (fuel + 1)
        = { events := thinkingEv :: (roundEvents exec reqs ++ r.events)
            messages := roundMsgs exec reqs ++ r.messages
            status := r.status
            iterations := r.iterations
            reason := r.reason } := by
  intro r hr
  unfold loopAux
  simp [hk, hlim, hr]

theorem loopAux_success_shape (gw : Nat → GwResponse) (exec : String → String → String)
    (cid : String) (maxIter : Nat) :
    ∀ (fuel iter : Nat), (loopAux gw exec cid maxIter iter fuel).status = "success" →
      ∃ pre chunks i, (loopAux gw exec cid maxIter iter fuel).events
        = pre ++ (responseStartEv i :: (chunks.map responseChunkEv ++
            [responseEndEv (joinList chunks), doneEv "success" i cid])) ∧
        ∀ e ∈ pre, preEvent e = true := by
  intro fuel
  induction fuel with
  | zero =>
    intro iter hs
    simp only [loopAux] at hs
    simp at hs
  | succ fuel ih =>
    intro iter hs
    cases hk : gw iter with
    | finalText chunks =>
      refine ⟨[thinkingEv], chunks, iter + 1, ?_, ?_⟩
      · unfold loopAux
        rw [hk]
        rfl
      · intro e he
        simp at he
        subst he
        rfl
    | failure msg =>
      unfold loopAux at hs
      rw [hk] at hs
      simp at hs
    | toolCalls reqs =>
      by_cases hlim : iter + 1 ≥ maxIter
      · unfold loopAux at hs
        rw [hk] at hs
        simp [hlim] at hs
      · have hstep := loopAux_step_toolCalls gw exec cid maxIter iter fuel reqs hk hlim
          (loopAux gw exec cid maxIter (iter + 1) fuel) rfl
        rw [hstep] at hs
        have hs' : (loopAux gw exec cid maxIter (iter + 1) fuel).status = "success" := hs
        obtain ⟨pre, chunks, i, heq, hpre⟩ := ih (iter + 1) hs'
        refine ⟨thinkingEv :: (roundEvents exec reqs ++ pre), chunks, i, ?_, ?_⟩
        · rw [hstep]
          show thinkingEv :: (roundEvents exec reqs ++
              (loopAux gw exec cid maxIter (iter + 1) fuel).events) = _
          rw [heq]
          simp
        · intro e he
          rcases List.mem_cons.mp he with rfl | he
          · rfl
          rcases List.mem_append.mp he with he | he
          · exact preEvent_round exec reqs e (List.mem_cons_of_mem _ he)
          · exact hpre e he

/-- C1 (amended). For every streamed turn that completes successfully,
the `response_end` event's `full_response` equals the concatenation of
all `response_chunk` contents in emission order; and when that
concatenation is nonempty, the client — starting from any state whose
accumulated message is empty, as `sendMessageStream` sets up — ends the
turn with exactly that concatenation appended as the assistant message.
(As stated the claim also covered an empty final text; the
counterexample shows the client then records an assistant message with
no content instead of the empty concatenation.) -/
theorem C1_chunks_reconstruct (gw : Nat → GwResponse) (exec : String → String → String)
    (cid : String) (maxIter : Nat) (s : StoreState) (hsm : s.streamingMessage = "")
    (hst : (agentRun gw exec cid maxIter).status = "success") :
    endFull (agentRun gw exec cid maxIter).events
      = some (joinList (chunkContents (agentRun gw exec cid maxIter).events)) ∧
    (joinList (chunkContents (agentRun gw exec cid maxIter).events) ≠ "" →
      (processTurn s (agentRun gw exec cid maxIter).events).conversationHistory
        = s.conversationHistory ++
          [⟨"assistant", some (joinList (chunkContents (agentRun gw exec cid maxIter).events))⟩]) := by
  unfold agentRun at hst ⊢
  obtain ⟨pre, chunks, i, heq, hpre⟩ :=
    loopAux_success_shape gw exec cid maxIter maxIter 0 hst
  have hcc : chunkContents (loopAux gw exec cid maxIter 0 maxIter).events = chunks := by
    rw [heq, chunkContents_append, chunkContents_preEvents pre hpre, chunkContents_tail]
    simp
  constructor
  · rw [hcc, heq, endFull_preEvents pre _ hpre, endFull_tail]
  · intro hne
    rw [hcc] at hne ⊢
    rw [heq, processTurn_append]
    have hp := processTurn_preEvents pre s hpre
    rw [processTurn_streaming_tail (processTurn s pre) chunks (joinList chunks) "success" cid
      i i (hp.1.trans hsm) hne]
    rw [hp.2]

/-- Closed instance of the C1 theorem: two chunks `30` and `%` are
reconstructed as the assistant message `30%`. -/
theorem C1_chunks_reconstruct_witness :
    initState.streamingMessage = "" ∧
    (agentRun (fun _ => .finalText ["30", "%"]) (fun _ _ => "") "c" 15).status = "success" ∧
    (processTurn initState
        (agentRun (fun _ => .finalText ["30", "%"]) (fun _ _ => "") "c" 15).events).conversationHistory
      = [⟨"assistant", some "30%"⟩] := by
  refine ⟨rfl, rfl, ?_⟩
  have h := (C1_chunks_reconstruct (fun _ => .finalText ["30", "%"]) (fun _ _ => "") "c" 15
    initState rfl rfl).2 (by decide)
  have h2 : joinList (chunkContents
      (agentRun (fun _ => .finalText ["30", "%"]) (fun _ _ => "") "c" 15).events) = "30%" := rfl
  rw [h2] at h
  simpa using h

/-- C1 counterexample. A successful streamed turn whose final text is
empty (`FinalText("")`, sanctioned by the spec's tie-break policy): the
chunk concatenation is `""`, but the client's `done` branch evaluates
`'' || data.response || data.message` to `undefined` and records an
assistant message with no content instead of the empty concatenation, so
the claim's "reconstructs the final assistant message exactly as this
concatenation" is false on this turn. -/
theorem C1_counterexample :
    (agentRun (fun _ => .finalText [""]) (fun _ _ => "") "c" 15).status = "success" ∧
    joinList (chunkContents (agentRun (fun _ => .finalText [""]) (fun _ _ => "") "c" 15).events)
      = "" ∧
    (processTurn initState
        (agentRun (fun _ => .finalText [""]) (fun _ _ => "") "c" 15).events).conversationHistory
      ≠ [⟨"assistant", some (joinList (chunkContents
          (agentRun (fun _ => .finalText [""]) (fun _ _ => "") "c" 15).events))⟩] := by
  refine ⟨rfl, rfl, by decide⟩

theorem some_beq_some (a b : String) : (some a == some b) = (a == b) := rfl

theorem countEv_append (t : String) (a b : List WireEvent) :
    countEv t (a ++ b) = countEv t a + countEv t b := by
  unfold countEv
  exact List.countP_append _ a b

theorem countP_ev_map {β : Type} (f : β → WireEvent) (t : String)
    (hval : ∀ x, ((f x).1 == t) = true) (l : List β) :
    (l.map f).countP (fun e => e.1 == t) = l.length := by
  induction l with
  | nil => rfl
  | cons x rest ihr => simp [hval, ihr]

theorem countP_ev_map_zero {β : Type} (f : β → WireEvent) (t : String)
    (hval : ∀ x, ((f x).1 == t) = false) (l : List β) :
    (l.map f).countP (fun e => e.1 == t) = 0 := by
  induction l with
  | nil => rfl
  | cons x rest ihr => simp [hval, ihr]

theorem countEv_round (exec : String → String → String) (reqs : List (String × String)) :
    countEv "tool_call" (roundEvents exec reqs) = reqs.length ∧
    countEv "tool_result" (roundEvents exec reqs) = reqs.length := by
  unfold countEv roundEvents
  rw [List.countP_append, List.countP_append]
  constructor
  · rw [countP_ev_map toolCallEv "tool_call" (fun _ => rfl),
      countP_ev_map_zero (toolResultEv exec) "tool_call" (fun _ => rfl)]
    simp
  · rw [countP_ev_map_zero toolCallEv "tool_result" (fun _ => rfl),
      countP_ev_map (toolResultEv exec) "tool_result" (fun _ => rfl)]
    simp

theorem loopAux_count_eq (gw : Nat → GwResponse) (exec : String → String → String)
    (cid : String) (maxIter : Nat) :
    ∀ (fuel iter : Nat),
      countEv "tool_call" (loopAux gw exec cid maxIter iter fuel).events
        = countEv "tool_result" (loopAux gw exec cid maxIter iter fuel).events := by
  intro fuel
  induction fuel with
  | zero =>
    intro iter
    rfl
  | succ fuel ih =>
    intro iter
    cases hk : gw iter with
    | finalText chunks =>
      have hev : (loopAux gw exec cid maxIter iter (fuel + 1)).events
          = thinkingEv :: responseStartEv (iter + 1) ::
            (chunks.map responseChunkEv ++
              [responseEndEv (joinList chunks), doneEv "success" (iter + 1) cid]) := by
        unfold loopAux
        rw [hk]
      rw [hev]
      unfold countEv
      simp [List.countP_append, thinkingEv, responseStartEv, responseEndEv, doneEv,
        countP_ev_map_zero responseChunkEv "tool_call" (fun _ => rfl),
        countP_ev_map_zero responseChunkEv "tool_result" (fun _ => rfl)]
    | failure msg =>
      have hev : (loopAux gw exec cid maxIter iter (fuel + 1)).events
          = [thinkingEv, errorEv msg] := by
        unfold loopAux
        rw [hk]
      rw [hev]
      rfl
    | toolCalls reqs =>
      by_cases hlim : iter + 1 ≥ maxIter
      · have hev : (loopAux gw exec cid maxIter iter (fuel + 1)).events
            = thinkingEv :: (roundEvents exec reqs ++ [doneEv "error" (iter + 1) cid]) := by
          unfold loopAux
          rw [hk]
          simp [hlim]
        rw [hev]
        have hr := countEv_round exec reqs
        unfold countEv at hr ⊢
        simp [List.countP_append, thinkingEv, doneEv, hr.1, hr.2]
      · have hstep := loopAux_step_toolCalls gw exec cid maxIter iter fuel reqs hk hlim
          (loopAux gw exec cid maxIter (iter + 1) fuel) rfl
        rw [hstep]
        show countEv "tool_call" (thinkingEv :: (roundEvents exec reqs ++
            (loopAux gw exec cid maxIter (iter + 1) fuel).events)) = _
        have hr := countEv_round exec reqs
        have hrec := ih (iter + 1)
        unfold countEv at hr hrec ⊢
        simp [List.countP_append, thinkingEv, hr.1, hr.2, hrec]

theorem nameCount_zero_of_no_type (t n : String) (es : List WireEvent)
    (h : ∀ e ∈ es, (e.1 == t) = false) (k : Nat) :
    nameCount t n (es.take k) = 0 := by
  apply List.countP_eq_zero.mpr
  intro e he
  simp [h e (List.mem_of_mem_take he)]

theorem prefix_le_glue (a b : List WireEvent) (n : String)
    (ha : ∀ k, nameCount "tool_result" n (a.take k) ≤ nameCount "tool_call" n (a.take k))
    (hb : ∀ k, nameCount "tool_result" n (b.take k) ≤ nameCount "tool_call" n (b.take k)) :
    ∀ k, nameCount "tool_result" n ((a ++ b).take k)
      ≤ nameCount "tool_call" n ((a ++ b).take k) := by
  intro k
  rw [List.take_append_eq_append_take]
  unfold nameCount
  rw [List.countP_append, List.countP_append]
  exact Nat.add_le_add (ha k) (hb (k - a.length))

theorem prefix_le_cons_thinking (es : List WireEvent) (n : String)
    (h : ∀ k, nameCount "tool_result" n (es.take k) ≤ nameCount "tool_call" n (es.take k)) :
    ∀ k, nameCount "tool_result" n ((thinkingEv :: es).take k)
      ≤ nameCount "tool_call" n ((thinkingEv :: es).take k) := by
  intro k
  cases k with
  | zero => simp [nameCount]
  | succ j =>
    rw [List.take_succ_cons]
    unfold nameCount
    rw [List.countP_cons, List.countP_cons]
    simpa [thinkingEv] using h j

theorem countP_name_result_map (exec : String → String → String)
    (reqs : List (String × String)) (n : String) :
    (reqs.map (toolResultEv exec)).countP
        (fun e => e.1 == "tool_result" && e.2.tool_name == some n)
      = reqs.countP (fun r => r.1 == n) := by
  induction reqs with
  | nil => rfl
  | cons r rest ihr => simp [List.countP_cons, toolResultEv, some_beq_some, ihr]

theorem countP_name_call_map (reqs : List (String × String)) (n : String) :
    (reqs.map toolCallEv).countP (fun e => e.1 == "tool_call" && e.2.tool_name == some n)
      = reqs.countP (fun r => r.1 == n) := by
  induction reqs with
  | nil => rfl
  | cons r rest ihr => simp [List.countP_cons, toolCallEv, some_beq_some, ihr]

theorem round_prefix (exec : String → String → String) (reqs : List (String × String))
    (n : String) :
    ∀ k, nameCount "tool_result" n ((roundEvents exec reqs).take k)
      ≤ nameCount "tool_call" n ((roundEvents exec reqs).take k) := by
  intro k
  unfold roundEvents
  rw [List.take_append_eq_append_take]
  unfold nameCount
  rw [List.countP_append, List.countP_append]
  have h1 : ∀ j, (((reqs.map toolCallEv).take j).countP
      (fun e => e.1 == "tool_result" && e.2.tool_name == some n)) = 0 := by
    intro j
    apply List.countP_eq_zero.mpr
    intro e he
    obtain ⟨r, _, rfl⟩ := List.mem_map.mp (List.mem_of_mem_take he)
    simp [toolCallEv]
  have h2 : ∀ j, (((reqs.map (toolResultEv exec)).take j).countP
      (fun e => e.1 == "tool_call" && e.2.tool_name == some n)) = 0 := by
    intro j
    apply List.countP_eq_zero.mpr
    intro e he
    obtain ⟨r, _, rfl⟩ := List.mem_map.mp (List.mem_of_mem_take he)
    simp [toolResultEv]
  rw [h1 k, h2 (k - (reqs.map toolCallEv).length), Nat.zero_add, Nat.add_zero]
  by_cases hk : k ≤ (reqs.map toolCallEv).length
  · rw [Nat.sub_eq_zero_of_le hk]
    simp
  · rw [List.take_of_length_le (Nat.le_of_not_le hk)]
    calc ((reqs.map (toolResultEv exec)).take (k - (reqs.map toolCallEv).length)).countP
            (fun e => e.1 == "tool_result" && e.2.tool_name == some n)
        ≤ (reqs.map (toolResultEv exec)).countP
            (fun e => e.1 == "tool_result" && e.2.tool_name == some n) :=
          List.Sublist.countP_le _ (List.take_sublist _ _)
      _ = reqs.countP (fun r => r.1 == n) := countP_name_result_map exec reqs n
      _ = (reqs.map toolCallEv).countP
            (fun e => e.1 == "tool_call" && e.2.tool_name == some n) :=
          (countP_name_call_map reqs n).symm

theorem loopAux_prefix (gw : Nat → GwResponse) (exec : String → String → String)
    (cid : String) (maxIter : Nat) (n : String) :
    ∀ (fuel iter k : Nat),
      nameCount "tool_result" n ((loopAux gw exec cid maxIter iter fuel).events.take k)
        ≤ nameCount "tool_call" n ((loopAux gw exec cid maxIter iter fuel).events.take k) := by
  intro fuel
  induction fuel with
  | zero =>
    intro iter k
    have h0 : (loopAux gw exec cid maxIter iter 0).events = [errorEv "loop interrupted"] := rfl
    rw [h0, nameCount_zero_of_no_type _ _ _ (by
      intro e he
      simp at he
      subst he
      rfl) k]
    exact Nat.zero_le _
  | succ fuel ih =>
    intro iter k
    cases hk : gw iter with
    | finalText chunks =>
      have hev : (loopAux gw exec cid maxIter iter (fuel + 1)).events
          = thinkingEv :: responseStartEv (iter + 1) ::
            (chunks.map responseChunkEv ++
              [responseEndEv (joinList chunks), doneEv "success" (iter + 1) cid]) := by
        unfold loopAux
        rw [hk]
      rw [hev, nameCount_zero_of_no_type _ _ _ ?h k]
      · exact Nat.zero_le _
      case h =>
        intro e he
        rcases List.mem_cons.mp he with rfl | he
        · rfl
        rcases List.mem_cons.mp he with rfl | he
        · rfl
        rcases List.mem_append.mp he with he | he
        · obtain ⟨c, _, rfl⟩ := List.mem_map.mp he
          rfl
        · rcases List.mem_cons.mp he with rfl | he
          · rfl
          · simp at he
            subst he
            rfl
    | failure msg =>
      have hev : (loopAux gw exec cid maxIter iter (fuel + 1)).events
          = [thinkingEv, errorEv msg] := by
        unfold loopAux
        rw [hk]
      rw [hev, nameCount_zero_of_no_type _ _ _ ?h k]
      · exact Nat.zero_le _
      case h =>
        intro e he
        rcases List.mem_cons.mp he with rfl | he
        · rfl
        · simp at he
          subst he
          rfl
    | toolCalls reqs =>
      by_cases hlim : iter + 1 ≥ maxIter
      · have hev : (loopAux gw exec cid maxIter iter (fuel + 1)).events
            = thinkingEv :: (roundEvents exec reqs ++ [doneEv "error" (iter + 1) cid]) := by
          unfold loopAux
          rw [hk]
          simp [hlim]
        rw [hev]
        apply prefix_le_cons_thinking
        apply prefix_le_glue
        · exact round_prefix exec reqs n
        · intro j
          rw [nameCount_zero_of_no_type _ _ _ (by
            intro e he
            simp at he
            subst he
            rfl) j]
          exact Nat.zero_le _
      · have hstep := loopAux_step_toolCalls gw exec cid maxIter iter fuel reqs hk hlim
          (loopAux gw exec cid maxIter (iter + 1) fuel) rfl
        rw [hstep]
        show nameCount "tool_result" n ((thinkingEv :: (roundEvents exec reqs ++
            (loopAux gw exec cid maxIter (iter + 1) fuel).events)).take k) ≤ _
        apply prefix_le_cons_thinking
        apply prefix_le_glue
        · exact round_prefix exec reqs n
        · exact ih (iter + 1)

theorem runningNames_append (a b : List ToolCallEntry) :
    runningNames (a ++ b) = runningNames a ++ runningNames b := by
  simp [runningNames]

theorem hasRunning_iff (l : List ToolCallEntry) (n : String) :
    hasRunning l n = true ↔ n ∈ runningNames l := by
  simp only [hasRunning, runningNames, List.any_eq_true, List.mem_map, List.mem_filter,
    Bool.and_eq_true, beq_iff_eq]
  constructor
  · rintro ⟨e, he, hn, hs⟩
    exact ⟨e, ⟨he, by simp [hs]⟩, hn⟩
  · rintro ⟨e, ⟨he, hs⟩, hn⟩
    exact ⟨e, he, hn, by simpa using hs⟩

theorem count_nil_of_all_zero (l : List String) (h : ∀ m, l.count m = 0) : l = [] := by
  cases l with
  | nil => rfl
  | cons a t =>
    have := h a
    simp at this

theorem completeFirst_counts (n msg : String) : ∀ (l : List ToolCallEntry),
    n ∈ runningNames l →
    (runningNames (completeFirst l n msg)).count n + 1 = (runningNames l).count n ∧
    ∀ m, m ≠ n →
      (runningNames (completeFirst l n msg)).count m = (runningNames l).count m := by
  intro l
  induction l with
  | nil =>
    intro h
    simp [runningNames] at h
  | cons e t ih =>
    intro h
    unfold completeFirst
    by_cases hmatch : e.tool_name = n ∧ e.status = "running"
    · rw [if_pos hmatch]
      have h1 : runningNames ({ e with status := "completed", message := msg } :: t)
          = runningNames t := by
        simp [runningNames]
      have h2 : runningNames (e :: t) = n :: runningNames t := by
        simp [runningNames, List.filter_cons, hmatch.2, hmatch.1]
      rw [h1, h2]
      constructor
      · simp [List.count_cons_self]
      · intro m hm
        simp [List.count_cons, hm]
    · rw [if_neg hmatch]
      by_cases hrun : e.status = "running"
      · have hen : e.tool_name ≠ n := fun hn => hmatch ⟨hn, hrun⟩
        have h3 : ∀ X, runningNames (e :: X) = e.tool_name :: runningNames X := by
          intro X
          simp [runningNames, List.filter_cons, hrun]
      -- the head entry is running but has a different name
        rw [h3] at h
        have hmem : n ∈ runningNames t := by
          rcases List.mem_cons.mp h with h | h
          · exact (hen h.symm).elim
          · exact h
        obtain ⟨ih1, ih2⟩ := ih hmem
        rw [h3, h3]
        constructor
        · rw [List.count_cons_of_ne (fun hx => hen hx.symm),
            List.count_cons_of_ne (fun hx => hen hx.symm)]
          omega
        · intro m hm
          rw [List.count_cons, List.count_cons, ih2 m hm]
      · have h4 : ∀ X, runningNames (e :: X) = runningNames X := by
          intro X
          simp [runningNames, List.filter_cons, hrun]
        rw [h4] at h
        obtain ⟨ih1, ih2⟩ := ih h
        simp only [h4]
        exact ⟨ih1, ih2⟩

theorem stepChecked_not_result (p : StoreState × Bool) (e : WireEvent)
    (h : e.1 ≠ "tool_result") : (stepChecked p e).2 = p.2 := by
  simp [stepChecked, h]

theorem foldChecked_noResult : ∀ (es : List WireEvent), (∀ e ∈ es, e.1 ≠ "tool_result") →
    ∀ (s : StoreState) (b : Bool), (es.foldl stepChecked (s, b)).2 = b := by
  intro es
  induction es with
  | nil =>
    intro _ s b
    rfl
  | cons e t ih =>
    intro h s b
    rw [List.foldl_cons]
    have h2 : (stepChecked (s, b) e).2 = b := stepChecked_not_result (s, b) e
      (h e (List.mem_cons_self e t))
    have hpair : stepChecked (s, b) e = ((stepChecked (s, b) e).1, b) := Prod.ext rfl h2
    rw [hpair]
    exact ih (fun x hx => h x (List.mem_cons_of_mem e hx)) _ b

theorem processResults (exec : String → String → String) :
    ∀ (reqs : List (String × String)) (s : StoreState) (b : Bool),
      (∀ m, (runningNames s.currentToolCalls).count m
          = (reqs.map (fun r => jsOrD (some r.1) "工具")).count m) →
      ((reqs.map (toolResultEv exec)).foldl stepChecked (s, b)).2 = b ∧
      runningNames (((reqs.map (toolResultEv exec)).foldl stepChecked (s, b)).1).currentToolCalls
        = [] := by
  intro reqs
  induction reqs with
  | nil =>
    intro s b hinv
    refine ⟨rfl, ?_⟩
    exact count_nil_of_all_zero _ (fun m => by simpa using hinv m)
  | cons r rest ih =>
    intro s b hinv
    rw [List.map_cons, List.foldl_cons]
    have hmem : jsOrD (some r.1) "工具" ∈ runningNames s.currentToolCalls := by
      apply List.count_pos_iff.mp
      rw [hinv (jsOrD (some r.1) "工具"), List.map_cons]
      simp [List.count_cons_self]
    have hrun : hasRunning s.currentToolCalls (jsOrD (some r.1) "工具") = true :=
      (hasRunning_iff _ _).mpr hmem
    have h2 : (stepChecked (s, b) (toolResultEv exec r)).2 = b := by
      simp [stepChecked, toolResultEv, hrun]
    have h1 : (stepChecked (s, b) (toolResultEv exec r)).1.currentToolCalls
        = completeFirst s.currentToolCalls (jsOrD (some r.1) "工具")
            (jsOrD (some (r.1 ++ " 执行完成")) (jsOrD (some r.1) "工具" ++ " 执行完成")) := rfl
    obtain ⟨hc1, hc2⟩ := completeFirst_counts (jsOrD (some r.1) "工具")
      (jsOrD (some (r.1 ++ " 执行完成")) (jsOrD (some r.1) "工具" ++ " 执行完成"))
      s.currentToolCalls hmem
    have hinv2 : ∀ m,
        (runningNames (stepChecked (s, b) (toolResultEv exec r)).1.currentToolCalls).count m
          = ((rest.map (fun r => jsOrD (some r.1) "工具")).count m) := by
      intro m
      rw [h1]
      by_cases hm : m = jsOrD (some r.1) "工具"
      · subst hm
        have hs := hinv (jsOrD (some r.1) "工具")
        rw [List.map_cons, List.count_cons_self] at hs
        omega
      · rw [hc2 m hm]
        have hs := hinv m
        rw [List.map_cons, List.count_cons_of_ne hm] at hs
        exact hs
    have hpair : stepChecked (s, b) (toolResultEv exec r)
        = ((stepChecked (s, b) (toolResultEv exec r)).1, b) := Prod.ext rfl h2
    rw [hpair]
    exact ih _ b hinv2

theorem processCalls : ∀ (reqs : List (String × String)) (s : StoreState) (b : Bool),
    ((reqs.map toolCallEv).foldl stepChecked (s, b)).2 = b ∧
    runningNames (((reqs.map toolCallEv).foldl stepChecked (s, b)).1).currentToolCalls
      = runningNames s.currentToolCalls ++ reqs.map (fun r => jsOrD (some r.1) "工具") := by
  intro reqs
  induction reqs with
  | nil =>
    intro s b
    exact ⟨rfl, by simp⟩
  | cons r rest ih =>
    intro s b
    rw [List.map_cons, List.foldl_cons]
    have h2 : (stepChecked (s, b) (toolCallEv r)).2 = b := by
      simp [stepChecked, toolCallEv]
    have h1 : (stepChecked (s, b) (toolCallEv r)).1.currentToolCalls
        = s.currentToolCalls ++ [⟨jsOrD (some r.1) "工具", "running",
            jsOrD (some ("正在调用 " ++ r.1 ++ "..."))
              ("正在调用 " ++ jsOrD (some r.1) "工具" ++ "...")⟩] := rfl
    have hpair : stepChecked (s, b) (toolCallEv r)
        = ((stepChecked (s, b) (toolCallEv r)).1, b) := Prod.ext rfl h2
    rw [hpair]
    obtain ⟨ihf, ihr⟩ := ih (stepChecked (s, b) (toolCallEv r)).1 b
    refine ⟨ihf, ?_⟩
    rw [ihr, h1, runningNames_append]
    have hone : runningNames [(⟨jsOrD (some r.1) "工具", "running",
        jsOrD (some ("正在调用 " ++ r.1 ++ "..."))
          ("正在调用 " ++ jsOrD (some r.1) "工具" ++ "...")⟩ : ToolCallEntry)]
        = [jsOrD (some r.1) "工具"] := by
      simp [runningNames]
    rw [hone, List.map_cons]
    simp

theorem processRoundChecked (exec : String → String → String)
    (reqs : List (String × String)) (s : StoreState) (b : Bool)
    (h : runningNames s.currentToolCalls = []) :
    ((roundEvents exec reqs).foldl stepChecked (s, b)).2 = b ∧
    runningNames (((roundEvents exec reqs).foldl stepChecked (s, b)).1).currentToolCalls
      = [] := by
  unfold roundEvents
  rw [List.foldl_append]
  obtain ⟨hc2, hc1⟩ := processCalls reqs s b
  have hpair : (reqs.map toolCallEv).foldl stepChecked (s, b)
      = (((reqs.map toolCallEv).foldl stepChecked (s, b)).1, b) := Prod.ext rfl hc2
  rw [hpair]
  apply processResults
  intro m
  rw [hc1, h]
  simp

theorem loopAux_checked (gw : Nat → GwResponse) (exec : String → String → String)
    (cid : String) (maxIter : Nat) :
    ∀ (fuel iter : Nat) (s : StoreState) (b : Bool),
      runningNames s.currentToolCalls = [] →
      ((loopAux gw exec cid maxIter iter fuel).events.foldl stepChecked (s, b)).2 = b := by
  intro fuel
  induction fuel with
  | zero =>
    intro iter s b _
    have h0 : (loopAux gw exec cid maxIter iter 0).events = [errorEv "loop interrupted"] := rfl
    rw [h0]
    apply foldChecked_noResult
    intro e he
    simp at he
    subst he
    decide
  | succ fuel ih =>
    intro iter s b h
    cases hk : gw iter with
    | finalText chunks =>
      have hev : (loopAux gw exec cid maxIter iter (fuel + 1)).events
          = thinkingEv :: responseStartEv (iter + 1) ::
            (chunks.map responseChunkEv ++
              [responseEndEv (joinList chunks), doneEv "success" (iter + 1) cid]) := by
        unfold loopAux
        rw [hk]
      rw [hev]
      apply foldChecked_noResult
      intro e he
      rcases List.mem_cons.mp he with rfl | he
      · decide
      rcases List.mem_cons.mp he with rfl | he
      · simp [responseStartEv]
      rcases List.mem_append.mp he with he | he
      · obtain ⟨c, _, rfl⟩ := List.mem_map.mp he
        simp [responseChunkEv]
      · rcases List.mem_cons.mp he with rfl | he
        · simp [responseEndEv]
        · simp at he
          subst he
          simp [doneEv]
    | failure msg =>
      have hev : (loopAux gw exec cid maxIter iter (fuel + 1)).events
          = [thinkingEv, errorEv msg] := by
        unfold loopAux
        rw [hk]
      rw [hev]
      apply foldChecked_noResult
      intro e he
      rcases List.mem_cons.mp he with rfl | he
      · decide
      · simp at he
        subst he
        simp [errorEv]
    | toolCalls reqs =>
      have hth2 : ∀ b2 : Bool, (stepChecked (s, b2) thinkingEv).2 = b2 :=
        fun b2 => stepChecked_not_result (s, b2) thinkingEv (by decide)
      have hth1 : (stepChecked (s, b) thinkingEv).1.currentToolCalls = s.currentToolCalls := rfl
      have hpairT : stepChecked (s, b) thinkingEv = ((stepChecked (s, b) thinkingEv).1, b) :=
        Prod.ext rfl (hth2 b)
      by_cases hlim : iter + 1 ≥ maxIter
      · have hev : (loopAux gw exec cid maxIter iter (fuel + 1)).events
            = thinkingEv :: (roundEvents exec reqs ++ [doneEv "error" (iter + 1) cid]) := by
          unfold loopAux
          rw [hk]
          simp [hlim]
        rw [hev, List.foldl_cons, hpairT, List.foldl_append]
        obtain ⟨hr2, hr1⟩ := processRoundChecked exec reqs (stepChecked (s, b) thinkingEv).1 b
          (by rw [hth1, h])
        have hpairR : (roundEvents exec reqs).foldl stepChecked
              ((stepChecked (s, b) thinkingEv).1, b)
            = (((roundEvents exec reqs).foldl stepChecked
                ((stepChecked (s, b) thinkingEv).1, b)).1, b) := Prod.ext rfl hr2
        rw [hpairR]
        apply foldChecked_noResult
        intro e he
        simp at he
        subst he
        simp [doneEv]
      · have hstep := loopAux_step_toolCalls gw exec cid maxIter iter fuel reqs hk hlim
          (loopAux gw exec cid maxIter (iter + 1) fuel) rfl
        rw [hstep]
        show ((thinkingEv :: (roundEvents exec reqs ++
            (loopAux gw exec cid maxIter (iter + 1) fuel).events)).foldl
              stepChecked (s, b)).2 = b
        rw [List.foldl_cons, hpairT, List.foldl_append]
        obtain ⟨hr2, hr1⟩ := processRoundChecked exec reqs (stepChecked (s, b) thinkingEv).1 b
          (by rw [hth1, h])
        have hpairR : (roundEvents exec reqs).foldl stepChecked
              ((stepChecked (s, b) thinkingEv).1, b)
            = (((roundEvents exec reqs).foldl stepChecked
                ((stepChecked (s, b) thinkingEv).1, b)).1, b) := Prod.ext rfl hr2
        rw [hpairR]
        exact ih (iter + 1) _ b hr1

/-- C2. For every turn, the number of `tool_call` events equals the
number of `tool_result` events; in every prefix of the turn's event
sequence, for every tool name, the `tool_result` events never outnumber
the `tool_call` events (each result is emitted after its matching call);
and when the client processes the turn's events in order starting with
no running tool-call entries, every `tool_result` event finds an entry
with the same tool name in running status (which `handleStreamEvent`
then marks completed). -/
theorem C2_tool_pairing (gw : Nat → GwResponse) (exec : String → String → String)
    (cid : String) (maxIter : Nat) (s : StoreState)
    (h : runningNames s.currentToolCalls = []) :
    countEv "tool_call" (agentRun gw exec cid maxIter).events
      = countEv "tool_result" (agentRun gw exec cid maxIter).events ∧
    (∀ (n : String) (k : Nat),
      nameCount "tool_result" n ((agentRun gw exec cid maxIter).events.take k)
        ≤ nameCount "tool_call" n ((agentRun gw exec cid maxIter).events.take k)) ∧
    (processTurnChecked s (agentRun gw exec cid maxIter).events).2 = true :=
  ⟨loopAux_count_eq gw exec cid maxIter maxIter 0,
   fun n k => loopAux_prefix gw exec cid maxIter n maxIter 0 k,
   loopAux_checked gw exec cid maxIter maxIter 0 s true h⟩

/-- Closed instance of the C2 theorem: a turn with a round of three tool
calls (two sharing a name) has balanced counts and every `tool_result`
finds its running entry. -/
theorem C2_tool_pairing_witness :
    runningNames initState.currentToolCalls = [] ∧
    countEv "tool_call" (agentRun
        (fun k => if k = 0 then .toolCalls [("a", "x"), ("a", "y"), ("b", "z")]
          else .finalText ["t"]) (fun _ _ => "ok") "c" 5).events
      = countEv "tool_result" (agentRun
        (fun k => if k = 0 then .toolCalls [("a", "x"), ("a", "y"), ("b", "z")]
          else .finalText ["t"]) (fun _ _ => "ok") "c" 5).events ∧
    (processTurnChecked initState (agentRun
        (fun k => if k = 0 then .toolCalls [("a", "x"), ("a", "y"), ("b", "z")]
          else .finalText ["t"]) (fun _ _ => "ok") "c" 5).events).2 = true :=
  ⟨rfl,
   (C2_tool_pairing (fun k => if k = 0 then .toolCalls [("a", "x"), ("a", "y"), ("b", "z")]
      else .finalText ["t"]) (fun _ _ => "ok") "c" 5 initState rfl).1,
   (C2_tool_pairing (fun k => if k = 0 then .toolCalls [("a", "x"), ("a", "y"), ("b", "z")]
      else .finalText ["t"]) (fun _ _ => "ok") "c" 5 initState rfl).2.2⟩

end Housing
